import Mathlib

/-!
# Verification of the pycollada loading / resolution / save core

Shallow embedding, in Lean 4, of the core of the `pycollada` repository:

* `collada/util.py` — `IndexedList` and `LazyIndexedList`;
* `collada/primitive.py` — `Primitive._getInputsFromList` (the input resolver);
* `collada/__init__.py` — the `Collada` document controller: error policy
  (`handleError` / `ignoreErrors`), zip member selection, node-graph fixpoint
  loading (`_loadNodes`), library parsing, and `save`.

Python dictionaries are modelled as association lists with last-writer-wins
insert, Python object identity as structural equality of values carrying a
numeric identity field, and Python exceptions as explicit `Except` / error
components threaded through the state.  Decoders for the individual entity
kinds (geometry, controller, ...) are external collaborators of the core
(out of scope per the design); they are modelled at their interface: a
decoder receives a tree node and either produces the domain object wrapping
that node or fails.
-/

set_option maxRecDepth 4000

namespace PyCollada

/-! ## Error kinds (collada/common.py interface)

The error classes form a flat hierarchy below the root class `DaeError`:
`DaeMalformedError`, `DaeBrokenRefError`, `DaeIncompleteError`,
`DaeUnsupportedError`, `DaeSaveValidationError`. -/

/-- The concrete error kind of a raised `DaeError` subclass. -/
inductive EKind where
  | malformed
  | brokenRef
  | incomplete
  | unsupported
  | saveValidation
  deriving DecidableEq, Repr

/-- A raised error: a kind together with its message. -/
structure DErr where
  kind : EKind
  msg : String
  deriving DecidableEq, Repr

deriving instance DecidableEq for Except

/-- A class specifier usable in the `maskedErrors` list: either the root
class `DaeError` or one of its concrete subclasses. -/
inductive ClsSpec where
  | daeError
  | sub (k : EKind)
  deriving DecidableEq, Repr

/-- `isinstance(error, mask)` for a concrete error and one mask entry:
every error is an instance of the root `DaeError`; a subclass specifier
matches exactly its own kind (the subclasses are unrelated siblings). -/
def instanceOf (e : DErr) (c : ClsSpec) : Bool :=
  match c with
  | .daeError => true
  | .sub k => e.kind = k

/-- `any(isinstance(error, mask) for mask in maskedErrors)`. -/
def isMasked (mask : List ClsSpec) (e : DErr) : Bool :=
  mask.any (fun c => instanceOf e c)

/-- `Collada.handleError`: append the error to `errors`; re-raise (second
component `true`) unless the error is an instance of a masked class. -/
def handleError (mask : List ClsSpec) (errors : List DErr) (e : DErr) :
    List DErr × Bool :=
  (errors ++ [e], ¬ isMasked mask e)

/-! ## Python dict as an association list (last-writer-wins) -/

/-- Remove all bindings of key `k` (a dict holds one binding per key). -/
def dictErase {α : Type} (d : List (String × α)) (k : String) : List (String × α) :=
  d.filter (fun p => p.1 ≠ k)

/-- `d[k] = v`: overwrite the binding of `k`. -/
def dictInsert {α : Type} (d : List (String × α)) (k : String) (v : α) :
    List (String × α) :=
  dictErase d k ++ [(k, v)]

/-- `d.get(k)` (`some` also means `k in d`). -/
def dictGet {α : Type} (d : List (String × α)) (k : String) : Option α :=
  (d.find? (fun p => p.1 = k)).map Prod.snd

theorem find?_dictErase {α : Type} (d : List (String × α)) (k k' : String) :
    (dictErase d k).find? (fun p => p.1 = k')
      = if k' = k then none else d.find? (fun p => p.1 = k') := by
  unfold dictErase
  rw [List.find?_filter]
  by_cases hk : k' = k
  · subst hk
    rw [List.find?_eq_none.mpr] <;> simp
  · have hfun : (fun (a : String × α) =>
          decide (decide (a.1 ≠ k) = true ∧ decide (a.1 = k') = true))
        = fun (a : String × α) => decide (a.1 = k') := by
      funext a
      by_cases h : a.1 = k'
      · simp [h, hk]
      · simp [h]
    rw [hfun]
    simp [hk]

theorem dictGet_erase {α : Type} (d : List (String × α)) (k k' : String) :
    dictGet (dictErase d k) k' = if k' = k then none else dictGet d k' := by
  unfold dictGet
  rw [find?_dictErase]
  by_cases hk : k' = k <;> simp [hk]

theorem dictGet_insert {α : Type} (d : List (String × α)) (k k' : String) (v : α) :
    dictGet (dictInsert d k v) k' = if k' = k then some v else dictGet d k' := by
  unfold dictInsert dictGet
  rw [List.find?_append, find?_dictErase]
  by_cases hk : k' = k
  · subst hk; simp [List.find?]
  · have hkk : ¬ (k = k') := fun h => hk h.symm
    simp [hk, List.find?, hkk, Option.or]
    cases List.find? (fun p => decide (p.1 = k')) d <;> simp

/-! ## `IndexedList` (collada/util.py)

`IndexedList` subclasses `list`, keeping a dict `_index` mapping each
element's identity-attribute value to the element.  The constructor indexes
every element via `_addindex`, which does `_idx[getattr(obj, attr)] = obj`
— a plain dict assignment, so on duplicate identity values the last element
wins while both elements stay in the sequence.  `append` does `_addindex`
then `list.append`, so a list built by appends has the same index as one
built by the constructor.  `__getitem__` first tries `self._index[ind]`;
an integer index is never a key of the string-keyed dict, so integer access
falls back to positional `list.__getitem__`. -/

/-- A domain object held in an `IndexedList`: `oid` stands for the Python
object identity (`id(obj)`), `id` is the value of its `id` attribute
(the `_attrs` tuple is `('id',)` for all ten document collections). -/
structure IObj where
  oid : Nat
  id : String
  deriving DecidableEq, Repr

/-- The `_index` dict of an `IndexedList` holding `items`: `_addindex`
(`_idx[obj.id] = obj`) applied to every element in sequence order. -/
def buildIndex (items : List IObj) : List (String × IObj) :=
  items.foldl (fun d o => dictInsert d o.id o) []

/-- `IndexedList.__getitem__` with a string key (also `get(key)`):
a lookup in `_index`. -/
def getById (items : List IObj) (s : String) : Option IObj :=
  dictGet (buildIndex items) s

/-- `IndexedList.__getitem__` with an integer key: the `_index` lookup
raises `KeyError` (the index is string-keyed), so the access falls back
to positional `list.__getitem__`. -/
def getByPos (items : List IObj) (i : Nat) (h : i < items.length) : IObj :=
  items.get ⟨i, h⟩

theorem buildIndex_append (items : List IObj) (o : IObj) :
    buildIndex (items ++ [o]) = dictInsert (buildIndex items) o.id o := by
  simp [buildIndex, List.foldl_append]

/-- In an `IndexedList` whose elements have pairwise distinct identity
values, the index maps each element's id back to that element. -/
theorem getById_of_nodup (items : List IObj)
    (hnd : (items.map IObj.id).Nodup) :
    ∀ o ∈ items, getById items o.id = some o := by
  induction items using List.reverseRecOn with
  | nil => intro o ho; cases ho
  | append_singleton init last ih =>
    intro o ho
    rw [List.map_append, List.nodup_append] at hnd
    obtain ⟨hndi, -, hdisj⟩ := hnd
    rcases List.mem_append.mp ho with hin | hlast
    · have hne : o.id ≠ last.id := by
        intro h
        exact hdisj (List.mem_map_of_mem IObj.id hin) (by simp [h])
      unfold getById
      rw [buildIndex_append, dictGet_insert]
      simp only [if_neg hne]
      exact ih hndi o hin
    · have ho' : o = last := by simpa using hlast
      subst ho'
      unfold getById
      rw [buildIndex_append, dictGet_insert]
      simp

/-- C8 (amended): in an `IndexedList` whose elements carry pairwise
distinct identity values, looking the collection up by the identity of the
element at any valid position returns that very element
(`collection[collection[i].id] is collection[i]`).  Without the
distinctness assumption the property fails, because `_addindex` lets the
last element with a given id overwrite the index entry
(see `c8_duplicate_id_counterexample`). -/
theorem c8_identity_lookup_roundtrip (items : List IObj)
    (hnd : (items.map IObj.id).Nodup) (i : Nat) (hi : i < items.length) :
    getById items (getByPos items i hi).id = some (getByPos items i hi) :=
  getById_of_nodup items hnd _ (items.get_mem i hi)

/-- Witness for `c8_identity_lookup_roundtrip` at a concrete two-element
collection. -/
theorem c8_identity_lookup_roundtrip_witness :
    ([⟨7, "x"⟩, ⟨9, "y"⟩].map IObj.id).Nodup ∧ 0 < ([⟨7, "x"⟩, ⟨9, "y"⟩] : List IObj).length ∧
      getById [⟨7, "x"⟩, ⟨9, "y"⟩] (getByPos [⟨7, "x"⟩, ⟨9, "y"⟩] 0 (by decide)).id
        = some (getByPos [⟨7, "x"⟩, ⟨9, "y"⟩] 0 (by decide)) :=
  ⟨by decide, by decide,
    c8_identity_lookup_roundtrip [⟨7, "x"⟩, ⟨9, "y"⟩] (by decide) 0 (by decide)⟩

/-- C8 counterexample: two distinct objects sharing the identity value
`"x"`.  The index entry for `"x"` is overwritten by the second object, so
`collection[collection[0].id]` returns the second object, not
`collection[0]`: the claim fails as stated for arbitrary non-empty
collections. -/
theorem c8_duplicate_id_counterexample :
    getByPos [⟨0, "x"⟩, ⟨1, "x"⟩] 0 (by decide) = ⟨0, "x"⟩ ∧
      getById [⟨0, "x"⟩, ⟨1, "x"⟩] (getByPos [⟨0, "x"⟩, ⟨1, "x"⟩] 0 (by decide)).id
        = some ⟨1, "x"⟩ ∧
      (⟨1, "x"⟩ : IObj) ≠ ⟨0, "x"⟩ := by
  refine ⟨by decide, by decide, by decide⟩

/-! ## `LazyIndexedList` (collada/util.py)

Stores raw tree nodes pending decode (`_pending_nodes`, a dict id → node),
already-materialized objects (`_loaded`, a dict id → object), a set of the
Python identities of loaded objects (`_loaded_objects`), and the insertion
order of identities (`_order`).  A Python exception raised by the injected
decoder is modelled as the `Except` error branch; an out-of-range index
raises `IndexError`. -/

/-- A raw tree node registered for lazy loading.  `nid` is its Python
object identity; `idAttr` its `id` attribute (`None` when absent). -/
structure LNode where
  nid : Nat
  idAttr : Option String
  deriving DecidableEq, Repr

/-- A materialized domain object (`oid` = Python object identity,
`id` = identity attribute, the `_attrs` tuple being `('id',)`). -/
structure LObj where
  oid : Nat
  id : String
  deriving DecidableEq, Repr

/-- A Python exception that is not necessarily a `DaeError`: a `DaeError`
proper, `IndexError` (out-of-range `__getitem__`), or `AttributeError`
(method call on `None`, as in `save` when the tree has no `scene`
element). -/
inductive PyExc where
  | dae (e : DErr)
  | indexError
  | attributeError
  deriving DecidableEq, Repr

/-- The mutable state of a `LazyIndexedList`. -/
structure LState where
  pending : List (String × LNode)
  loaded : List (String × LObj)
  loadedObjects : List Nat
  order : List String
  deriving DecidableEq, Repr

/-- A freshly constructed `LazyIndexedList`. -/
def LState.empty : LState := ⟨[], [], [], []⟩

/-- `LazyIndexedList.add_node`: record the node under its id attribute if
that attribute is present and truthy (a missing or empty id is falsy and
the node is ignored), appending the id to `_order` unconditionally. -/
def add_node (st : LState) (n : LNode) : LState :=
  match n.idAttr with
  | some s =>
      if s = "" then st
      else { st with pending := dictInsert st.pending s n,
                     order := st.order ++ [s] }
  | none => st

/-- `LazyIndexedList._load_item`: return the cached object if loaded;
else pop the pending node (the pop happens before the decoder runs, so a
decoder exception leaves the id in neither dict), decode, cache and return;
else return `None`.  `dec` is the injected `_loader_func`. -/
def load_item (dec : LNode → Except PyExc LObj) (st : LState) (objId : String) :
    LState × Except PyExc (Option LObj) :=
  match dictGet st.loaded objId with
  | some obj => (st, .ok (some obj))
  | none =>
    match dictGet st.pending objId with
    | some node =>
        let pending' := dictErase st.pending objId
        match dec node with
        | .ok obj =>
            ({ st with pending := pending',
                       loaded := dictInsert st.loaded objId obj,
                       loadedObjects :=
                         if obj.oid ∈ st.loadedObjects then st.loadedObjects
                         else st.loadedObjects ++ [obj.oid] },
             .ok (some obj))
        | .error e => ({ st with pending := pending' }, .error e)
    | none => (st, .ok none)

/-- `LazyIndexedList.get(key, default)`. -/
def lazyGet (dec : LNode → Except PyExc LObj) (st : LState) (key : String)
    (dflt : Option LObj) : LState × Except PyExc (Option LObj) :=
  match dictGet st.loaded key with
  | some obj => (st, .ok (some obj))
  | none =>
    if (dictGet st.pending key).isSome then load_item dec st key
    else (st, .ok dflt)

/-- `LazyIndexedList.__getitem__` with an integer key: negative indices
count from the end; out-of-range raises `IndexError`; otherwise the id at
that position in `_order` is materialized via `_load_item`. -/
def lazyGetPos (dec : LNode → Except PyExc LObj) (st : LState) (key : Int) :
    LState × Except PyExc (Option LObj) :=
  let key' := if key < 0 then key + st.order.length else key
  if 0 ≤ key' ∧ key' < st.order.length then
    load_item dec st (st.order.getD key'.toNat "")
  else
    (st, .error .indexError)

/-- `LazyIndexedList.append`: insert an already-decoded object directly
into the loaded dict (the `_attrs` loop runs once, for `'id'`), adding its
identity to `_order` only if not already present. -/
def lappend (st : LState) (obj : LObj) : LState :=
  { st with loaded := dictInsert st.loaded obj.id obj,
            loadedObjects :=
              if obj.oid ∈ st.loadedObjects then st.loadedObjects
              else st.loadedObjects ++ [obj.oid],
            order := if obj.id ∈ st.order then st.order
                     else st.order ++ [obj.id] }

/-- `LazyIndexedList.__len__`: the length of `_order`. -/
def lazyLen (st : LState) : Nat := st.order.length

/-! Operation sequences on a `LazyIndexedList`, for the length invariant:
registrations (`add_node`), appends, and the two materializing accesses
(keyed `get` and positional `__getitem__`). -/

/-- One operation applied to a `LazyIndexedList`. -/
inductive LOp where
  | reg (n : LNode)
  | app (o : LObj)
  | getK (k : String)
  | getP (i : Int)
  deriving DecidableEq, Repr

/-- Apply one operation (materializing accesses keep only the state). -/
def runOp (dec : LNode → Except PyExc LObj) (st : LState) : LOp → LState
  | .reg n => add_node st n
  | .app o => lappend st o
  | .getK k => (lazyGet dec st k none).1
  | .getP i => (lazyGetPos dec st i).1

/-- Apply a sequence of operations to a fresh `LazyIndexedList`. -/
def runOps (dec : LNode → Except PyExc LObj) (ops : List LOp) (st : LState) :
    LState :=
  ops.foldl (runOp dec) st

/-- The identity an operation contributes: the (truthy) id attribute of a
registered node, or the id of an appended object. -/
def effId : LOp → Option String
  | .reg n =>
      match n.idAttr with
      | some s => if s = "" then none else some s
      | none => none
  | .app o => some o.id
  | .getK _ => none
  | .getP _ => none

/-- All identities ever registered or appended by a sequence, in order. -/
def identsOf (ops : List LOp) : List String := ops.filterMap effId

/-- No identity is registered (`add_node`) when it has already appeared —
the hypothesis under which C9 holds.  `seen` accumulates all identities
contributed so far. -/
def regFresh (seen : List String) : List LOp → Bool
  | [] => true
  | .reg n :: rest =>
      (match n.idAttr with
       | some s =>
          if s = "" then regFresh seen rest
          else if s ∈ seen then false else regFresh (seen ++ [s]) rest
       | none => regFresh seen rest)
  | .app o :: rest => regFresh (seen ++ [o.id]) rest
  | .getK _ :: rest => regFresh seen rest
  | .getP _ :: rest => regFresh seen rest

theorem load_item_order (dec : LNode → Except PyExc LObj) (st : LState)
    (objId : String) : (load_item dec st objId).1.order = st.order := by
  unfold load_item
  cases dictGet st.loaded objId <;> simp
  cases h : dictGet st.pending objId <;> simp
  cases dec _ <;> simp

theorem lazyGet_order (dec : LNode → Except PyExc LObj) (st : LState)
    (key : String) (dflt : Option LObj) :
    (lazyGet dec st key dflt).1.order = st.order := by
  unfold lazyGet
  cases dictGet st.loaded key <;> simp
  split
  · exact load_item_order dec st key
  · rfl

theorem lazyGetPos_order (dec : LNode → Except PyExc LObj) (st : LState)
    (key : Int) : (lazyGetPos dec st key).1.order = st.order := by
  unfold lazyGetPos
  dsimp only
  split
  · split
    · exact load_item_order dec st _
    · rfl
  · split
    · exact load_item_order dec st _
    · rfl

theorem runOps_order_invariant (dec : LNode → Except PyExc LObj)
    (ops : List LOp) :
    ∀ seen st, st.order.Nodup → st.order.toFinset = seen.toFinset →
      regFresh seen ops = true →
      (runOps dec ops st).order.Nodup ∧
        (runOps dec ops st).order.toFinset = (seen ++ identsOf ops).toFinset := by
  induction ops with
  | nil =>
    intro seen st hnd hfs _
    simpa [runOps, identsOf] using ⟨hnd, hfs⟩
  | cons op rest ih =>
    intro seen st hnd hfs hfresh
    cases op with
    | reg n =>
      cases hattr : n.idAttr with
      | none =>
        have hrun : runOps dec (.reg n :: rest) st = runOps dec rest st := by
          simp [runOps, runOp, add_node, hattr]
        have hfresh' : regFresh seen rest = true := by
          simpa [regFresh, hattr] using hfresh
        have hids : identsOf (.reg n :: rest) = identsOf rest := by
          simp [identsOf, effId, hattr]
        rw [hrun, hids]
        exact ih seen st hnd hfs hfresh'
      | some s =>
        by_cases hs : s = ""
        · have hrun : runOps dec (.reg n :: rest) st = runOps dec rest st := by
            simp [runOps, runOp, add_node, hattr, hs]
          have hfresh' : regFresh seen rest = true := by
            simpa [regFresh, hattr, hs] using hfresh
          have hids : identsOf (.reg n :: rest) = identsOf rest := by
            simp [identsOf, effId, hattr, hs]
          rw [hrun, hids]
          exact ih seen st hnd hfs hfresh'
        · by_cases hseen : s ∈ seen
          · exfalso
            simp [regFresh, hattr, hs, hseen] at hfresh
          · have hfresh' : regFresh (seen ++ [s]) rest = true := by
              simpa [regFresh, hattr, hs, hseen] using hfresh
            have hsn : s ∉ st.order := by
              intro hmem
              exact hseen (by
                have := hfs ▸ List.mem_toFinset.mpr hmem
                simpa using List.mem_toFinset.mp this)
            have hrun : runOps dec (.reg n :: rest) st
                = runOps dec rest { st with pending := dictInsert st.pending s n,
                                            order := st.order ++ [s] } := by
              simp [runOps, runOp, add_node, hattr, hs]
            have hids : identsOf (.reg n :: rest) = s :: identsOf rest := by
              simp [identsOf, effId, hattr, hs]
            rw [hrun, hids]
            have hnd' : (st.order ++ [s]).Nodup := by
              simp [List.nodup_append, hnd, hsn]
            have hfs' : (st.order ++ [s]).toFinset = (seen ++ [s]).toFinset := by
              simp [hfs]
            have hmain := ih (seen ++ [s])
              { st with pending := dictInsert st.pending s n,
                        order := st.order ++ [s] } hnd' hfs' hfresh'
            refine ⟨hmain.1, ?_⟩
            rw [hmain.2]
            simp [List.toFinset_append]
    | app o =>
      have hrun : runOps dec (.app o :: rest) st = runOps dec rest (lappend st o) := by
        simp [runOps, runOp]
      have hfresh' : regFresh (seen ++ [o.id]) rest = true := by
        simpa [regFresh] using hfresh
      have hids : identsOf (.app o :: rest) = o.id :: identsOf rest := by
        simp [identsOf, effId]
      rw [hrun, hids]
      have hnd' : (lappend st o).order.Nodup := by
        by_cases hmem : o.id ∈ st.order
        · simpa [lappend, hmem] using hnd
        · simp [lappend, hmem, List.nodup_append, hnd, hmem]
      have hfs' : (lappend st o).order.toFinset = (seen ++ [o.id]).toFinset := by
        by_cases hmem : o.id ∈ st.order
        · have habs : o.id ∈ seen := by
            have := hfs ▸ List.mem_toFinset.mpr hmem
            simpa using List.mem_toFinset.mp this
          simp [lappend, hmem, hfs, List.toFinset_append]
          exact habs
        · simp [lappend, hmem, hfs, List.toFinset_append]
      have hmain := ih (seen ++ [o.id]) (lappend st o) hnd' hfs' hfresh'
      refine ⟨hmain.1, ?_⟩
      rw [hmain.2]
      simp [List.toFinset_append]
    | getK k =>
      have hrun : runOps dec (.getK k :: rest) st
          = runOps dec rest (lazyGet dec st k none).1 := by
        simp [runOps, runOp]
      have hfresh' : regFresh seen rest = true := by simpa [regFresh] using hfresh
      have hids : identsOf (.getK k :: rest) = identsOf rest := by
        simp [identsOf, effId]
      rw [hrun, hids]
      exact ih seen _ (by rw [lazyGet_order]; exact hnd)
        (by rw [lazyGet_order]; exact hfs) hfresh'
    | getP i =>
      have hrun : runOps dec (.getP i :: rest) st
          = runOps dec rest (lazyGetPos dec st i).1 := by
        simp [runOps, runOp]
      have hfresh' : regFresh seen rest = true := by simpa [regFresh] using hfresh
      have hids : identsOf (.getP i :: rest) = identsOf rest := by
        simp [identsOf, effId]
      rw [hrun, hids]
      exact ih seen _ (by rw [lazyGetPos_order]; exact hnd)
        (by rw [lazyGetPos_order]; exact hfs) hfresh'

/-- C9 (amended): `len(collection)` equals the number of distinct
identities ever registered or appended, independently of which entries
were materialized (`get` / positional access) and in what order, provided
no identity is ever passed to `add_node` after it has already been
registered or appended.  Without that proviso the count is inflated:
`add_node` appends the identity to `_order` unconditionally, while only
`append` checks for a previous occurrence
(see `c9_duplicate_register_counterexample`). -/
theorem c9_len_counts_distinct_identities (dec : LNode → Except PyExc LObj)
    (ops : List LOp) (hfresh : regFresh [] ops = true) :
    lazyLen (runOps dec ops LState.empty) = (identsOf ops).dedup.length := by
  have hmain := runOps_order_invariant dec ops [] LState.empty
    (by simp [LState.empty]) (by simp [LState.empty]) hfresh
  have h1 : (runOps dec ops LState.empty).order.toFinset
      = (identsOf ops).toFinset := by simpa using hmain.2
  unfold lazyLen
  calc (runOps dec ops LState.empty).order.length
      = (runOps dec ops LState.empty).order.toFinset.card :=
        (List.toFinset_card_of_nodup hmain.1).symm
    _ = (identsOf ops).toFinset.card := by rw [h1]
    _ = (identsOf ops).dedup.length := List.card_toFinset _

/-- A decoder that always raises a `DaeBrokenRefError` (used as an
arbitrary concrete injected `_loader_func`, including a failing one). -/
def decNever : LNode → Except PyExc LObj :=
  fun _ => .error (.dae ⟨.brokenRef, "failed to decode"⟩)

/-- Witness for `c9_len_counts_distinct_identities` on a concrete
register / append / materialize sequence. -/
theorem c9_len_counts_distinct_identities_witness :
    regFresh [] [LOp.reg ⟨0, some "a"⟩, LOp.app ⟨5, "b"⟩, LOp.getK "a"] = true ∧
      lazyLen (runOps decNever
          [LOp.reg ⟨0, some "a"⟩, LOp.app ⟨5, "b"⟩, LOp.getK "a"] LState.empty)
        = (identsOf [LOp.reg ⟨0, some "a"⟩, LOp.app ⟨5, "b"⟩, LOp.getK "a"]).dedup.length :=
  ⟨by decide,
    c9_len_counts_distinct_identities decNever
      [LOp.reg ⟨0, some "a"⟩, LOp.app ⟨5, "b"⟩, LOp.getK "a"] (by decide)⟩

/-- C9 counterexample: registering the same identity `"a"` twice gives
`len(collection) = 2` although only one distinct identity was ever
registered or appended, refuting the claim as stated. -/
theorem c9_duplicate_register_counterexample :
    lazyLen (runOps decNever [LOp.reg ⟨0, some "a"⟩, LOp.reg ⟨1, some "a"⟩]
        LState.empty) = 2 ∧
      (identsOf [LOp.reg ⟨0, some "a"⟩, LOp.reg ⟨1, some "a"⟩]).dedup.length = 1 ∧
      (2 : Nat) ≠ 1 := by
  refine ⟨by decide, by decide, by decide⟩

/-- C10: if the injected decoder raises while materializing a pending
identity, the exception propagates, but the node has already been popped
from the pending dict and was never cached as loaded; every subsequent
access to that identity — keyed `get` (returning the caller-supplied
default), `_load_item` (the common path of positional access and
iteration, returning `None`), or positional `__getitem__` — returns
without retrying the decode or raising, while `len()` still counts the
lost identity (`_order` is untouched). -/
theorem c10_decoder_failure_discards_pending
    (dec : LNode → Except PyExc LObj) (st : LState) (objId : String)
    (node : LNode) (e : PyExc) (dflt : Option LObj)
    (hload : dictGet st.loaded objId = none)
    (hpend : dictGet st.pending objId = some node)
    (hdec : dec node = .error e) :
    (load_item dec st objId).2 = .error e ∧
      dictGet (load_item dec st objId).1.pending objId = none ∧
      dictGet (load_item dec st objId).1.loaded objId = none ∧
      lazyLen (load_item dec st objId).1 = lazyLen st ∧
      load_item dec (load_item dec st objId).1 objId
        = ((load_item dec st objId).1, .ok none) ∧
      lazyGet dec (load_item dec st objId).1 objId dflt
        = ((load_item dec st objId).1, .ok dflt) ∧
      (∀ (i : Nat) (h : i < st.order.length),
        st.order.get ⟨i, h⟩ = objId →
          lazyGetPos dec (load_item dec st objId).1 i
            = ((load_item dec st objId).1, .ok none)) := by
  have hrun : load_item dec st objId
      = ({ st with pending := dictErase st.pending objId }, .error e) := by
    simp only [load_item, hload, hpend, hdec]
  have hp : dictGet (dictErase st.pending objId) objId = none := by
    rw [dictGet_erase]; simp
  have hsecond : load_item dec { st with pending := dictErase st.pending objId }
      objId = ({ st with pending := dictErase st.pending objId }, .ok none) := by
    unfold load_item
    rw [show ({ st with pending := dictErase st.pending objId } : LState).loaded
        = st.loaded from rfl, hload, hp]
  refine ⟨by rw [hrun], by rw [hrun]; exact hp, by rw [hrun]; exact hload,
    by rw [hrun]; rfl, by rw [hrun]; exact hsecond, ?_, ?_⟩
  · rw [hrun]
    unfold lazyGet
    rw [show ({ st with pending := dictErase st.pending objId } : LState).loaded
        = st.loaded from rfl, hload, hp]
    simp
  · intro i h hid
    rw [hrun]
    unfold lazyGetPos
    dsimp only
    have h0 : ¬ ((i : Int) < 0) := by omega
    rw [if_neg h0]
    have hcond : (0 : Int) ≤ (i : Int) ∧
        (i : Int) < (st.order.length : Int) := by
      refine ⟨by omega, ?_⟩
      exact_mod_cast h
    rw [if_pos hcond]
    have hget : st.order.getD ((i : Int).toNat) "" = objId := by
      have htn : ((i : Int).toNat) = i := by omega
      rw [htn, List.getD_eq_getElem st.order "" (by exact h)]
      simpa [List.get_eq_getElem] using hid
    rw [hget]
    exact hsecond

/-- Concrete pieces for the C10 witness: one pending node under id
`"a"`. -/
def stPend : LState := ⟨[("a", ⟨3, some "a"⟩)], [], [], ["a"]⟩

/-- Witness for `c10_decoder_failure_discards_pending` with a concrete
failing decoder and a one-element pending collection. -/
theorem c10_decoder_failure_discards_pending_witness :
    dictGet stPend.loaded "a" = none ∧
      dictGet stPend.pending "a" = some ⟨3, some "a"⟩ ∧
      decNever ⟨3, some "a"⟩ = .error (.dae ⟨.brokenRef, "failed to decode"⟩) ∧
      ((load_item decNever stPend "a").2
          = .error (.dae ⟨.brokenRef, "failed to decode"⟩) ∧
        dictGet (load_item decNever stPend "a").1.pending "a" = none ∧
        dictGet (load_item decNever stPend "a").1.loaded "a" = none ∧
        lazyLen (load_item decNever stPend "a").1 = lazyLen stPend ∧
        load_item decNever (load_item decNever stPend "a").1 "a"
          = ((load_item decNever stPend "a").1, .ok none) ∧
        lazyGet decNever (load_item decNever stPend "a").1 "a" (some ⟨9, "dflt"⟩)
          = ((load_item decNever stPend "a").1, .ok (some ⟨9, "dflt"⟩)) ∧
        (∀ (i : Nat) (h : i < stPend.order.length),
          stPend.order.get ⟨i, h⟩ = "a" →
            lazyGetPos decNever (load_item decNever stPend "a").1 i
              = ((load_item decNever stPend "a").1, .ok none))) :=
  ⟨by decide, by decide, rfl,
    c10_decoder_failure_discards_pending decNever stPend "a" ⟨3, some "a"⟩
      (.dae ⟨.brokenRef, "failed to decode"⟩) (some ⟨9, "dflt"⟩)
      (by decide) (by decide) rfl⟩

/-! ## Zip archive member selection (`Collada.__init__`)

When the input is a zip archive and no explicit `zip_filename` is given,
the constructor collects every member whose name uppercases to a `.DAE`
suffix, then runs a selection loop: take the first candidate; replace the
current selection by the next candidate only while the current selection
contains the substring `MACOSX`.  If no candidate is found a
`DaeIncompleteError` is raised. -/

/-- `name.upper()` (ASCII uppercasing, covering the schema's names). -/
def pyUpper (s : String) : String := ⟨s.data.map Char.toUpper⟩

/-- `s.endswith(suffix)`. -/
def pyEndsWith (s suffix : String) : Bool := List.isSuffixOf suffix.data s.data

/-- `sub in s` — Python substring containment. -/
def strContains (s sub : String) : Bool := decide (sub.data <:+: s.data)

/-- `name.upper().endswith('.DAE')`. -/
def isDaeName (n : String) : Bool := pyEndsWith (pyUpper n) ".DAE"

/-- The body of the selection loop (`self.filename` starts as `''`, which
is falsy): `if not self.filename: take name; elif "MACOSX" in
self.filename: take name`. -/
def selectStep (acc name : String) : String :=
  if acc = "" then name
  else if strContains acc "MACOSX" then name
  else acc

/-- `Collada.__init__`, zip branch without `zip_filename`: gather the
`.dae`-suffixed members, run the selection loop, then fail with
`DaeIncompleteError` if nothing (or a name not in the archive) was
selected. -/
def selectZipMember (names : List String) : Except DErr String :=
  let daefiles := names.filter isDaeName
  let filename := daefiles.foldl selectStep ""
  if filename = "" ∨ ¬ names.contains filename then
    .error ⟨.incomplete, "COLLADA file not found inside zip compressed file"⟩
  else
    .ok filename

/-- Reference recursion for the selection loop once a first candidate has
been taken: keep replacing while the current selection contains
`MACOSX`. -/
def pickFrom (acc : String) : List String → String
  | [] => acc
  | n :: rest => if strContains acc "MACOSX" then pickFrom n rest else acc

theorem selectStep_fold_of_fixed (l : List String) (acc : String)
    (hne : acc ≠ "") (hmac : strContains acc "MACOSX" = false) :
    l.foldl selectStep acc = acc := by
  induction l with
  | nil => rfl
  | cons n rest ih => simp [selectStep, hne, hmac, ih]

theorem selectStep_fold_eq_pickFrom (l : List String) :
    ∀ acc, acc ≠ "" → (∀ n ∈ l, n ≠ "") →
      l.foldl selectStep acc = pickFrom acc l := by
  induction l with
  | nil => intro acc _ _; rfl
  | cons n rest ih =>
    intro acc hne hl
    by_cases hmac : strContains acc "MACOSX"
    · have : selectStep acc n = n := by simp [selectStep, hne, hmac]
      simp only [List.foldl_cons, this, pickFrom, hmac, if_true]
      exact ih n (hl n (by simp)) (fun m hm => hl m (by simp [hm]))
    · have : selectStep acc n = acc := by simp [selectStep, hne, hmac]
      simp only [List.foldl_cons, this, pickFrom, hmac, if_false]
      simp only [Bool.not_eq_true] at hmac
      rw [selectStep_fold_of_fixed rest acc hne hmac]
      simp [hmac]

theorem pickFrom_spec (l : List String) :
    ∀ acc, pickFrom acc l
      = if strContains acc "MACOSX"
        then ((l.find? (fun n => ! strContains n "MACOSX")).getD (l.getLastD acc))
        else acc := by
  induction l with
  | nil => intro acc; by_cases hmac : strContains acc "MACOSX" <;> simp [pickFrom, hmac]
  | cons n rest ih =>
    intro acc
    by_cases hmac : strContains acc "MACOSX"
    · simp only [pickFrom, hmac, if_true]
      rw [ih n]
      by_cases hn : strContains n "MACOSX"
      · rw [if_pos hn,
          show List.find? (fun m => ! strContains m "MACOSX") (n :: rest)
            = List.find? (fun m => ! strContains m "MACOSX") rest from by
              simp [List.find?, hn],
          List.getLastD_cons]
      · rw [if_neg hn,
          show List.find? (fun m => ! strContains m "MACOSX") (n :: rest)
            = some n from by simp [List.find?, hn]]
        rfl
    · simp [pickFrom, hmac]

theorem getLastD_mem {α : Type} : ∀ (l : List α) (d : α), l ≠ [] → l.getLastD d ∈ l
  | [a], _, _ => by simp [List.getLastD_cons, List.getLastD]
  | a :: b :: bs, _, _ => by
      rw [List.getLastD_cons]
      exact List.mem_cons_of_mem a (getLastD_mem (b :: bs) a (by simp))

/-- A `.dae` candidate name is non-empty (the empty string has no
`.DAE`-suffixed uppercasing). -/
theorem isDaeName_ne_empty (n : String) (h : isDaeName n = true) : n ≠ "" := by
  intro h0
  subst h0
  exact absurd h (by decide)

/-- C6 (amended): with no explicit member configured, among the members
whose uppercased name ends in `.DAE` the constructor selects the
*first-seen* candidate, except that while the current selection contains
the resource-fork marker `MACOSX` it is overridden by each later
candidate — so the selected member is the first candidate not containing
`MACOSX`, or the last candidate if every candidate contains it (not the
last-seen candidate in general, see `c6_first_seen_counterexample`);
when no qualifying member exists, an incomplete-document error is
raised. -/
theorem c6_zip_member_selection (names : List String) :
    (names.filter isDaeName = [] →
      selectZipMember names
        = .error ⟨.incomplete, "COLLADA file not found inside zip compressed file"⟩) ∧
    (names.filter isDaeName ≠ [] →
      selectZipMember names
        = .ok (((names.filter isDaeName).find?
            (fun n => ! strContains n "MACOSX")).getD
              ((names.filter isDaeName).getLastD ""))) := by
  constructor
  · intro hempty
    unfold selectZipMember
    simp only [hempty]
    rfl
  · intro hne
    obtain ⟨d, rest, hcons⟩ := List.exists_cons_of_ne_nil hne
    have hall : ∀ n ∈ names.filter isDaeName, n ≠ "" := by
      intro n hn
      exact isDaeName_ne_empty n (List.of_mem_filter hn)
    have hd : d ≠ "" := hall d (by rw [hcons]; simp)
    have hfold : (names.filter isDaeName).foldl selectStep "" = pickFrom d rest := by
      rw [hcons]
      simp only [List.foldl_cons]
      have hstep : selectStep "" d = d := by simp [selectStep]
      rw [hstep]
      exact selectStep_fold_eq_pickFrom rest d hd
        (fun m hm => hall m (by rw [hcons]; simp [hm]))
    have hchar : pickFrom d rest
        = ((names.filter isDaeName).find? (fun n => ! strContains n "MACOSX")).getD
            ((names.filter isDaeName).getLastD "") := by
      rw [pickFrom_spec rest d, hcons]
      by_cases hmacd : strContains d "MACOSX"
      · rw [if_pos hmacd,
          show List.find? (fun n => ! strContains n "MACOSX") (d :: rest)
            = List.find? (fun n => ! strContains n "MACOSX") rest from by
              simp [List.find?, hmacd],
          List.getLastD_cons]
      · rw [if_neg hmacd,
          show List.find? (fun n => ! strContains n "MACOSX") (d :: rest)
            = some d from by simp [List.find?, hmacd]]
        rfl
    have hmem : pickFrom d rest ∈ names.filter isDaeName := by
      rw [hchar]
      cases hfind : (names.filter isDaeName).find? (fun n => ! strContains n "MACOSX") with
      | some x =>
        simp only [hfind, Option.getD_some]
        exact List.mem_of_find?_eq_some hfind
      | none =>
        simp only [hfind, Option.getD_none]
        exact getLastD_mem _ "" hne
    have hinnames : pickFrom d rest ∈ names := List.mem_of_mem_filter hmem
    have hpne : pickFrom d rest ≠ "" := hall _ hmem
    unfold selectZipMember
    simp only [hfold]
    rw [if_neg]
    · rw [hchar]
    · simp [hpne, hinnames]

/-- Witness for `c6_zip_member_selection`: a archive with a `MACOSX`
resource-fork entry first and two plain candidates after it selects the
first non-`MACOSX` candidate, and an archive without candidates errors. -/
theorem c6_zip_member_selection_witness :
    (["x.txt"].filter isDaeName = [] →
      selectZipMember ["x.txt"]
        = .error ⟨.incomplete, "COLLADA file not found inside zip compressed file"⟩) ∧
    ((["MACOSX/m.dae", "a.dae", "b.dae"].filter isDaeName ≠ []) ∧
      selectZipMember ["MACOSX/m.dae", "a.dae", "b.dae"]
        = .ok (((["MACOSX/m.dae", "a.dae", "b.dae"].filter isDaeName).find?
            (fun n => ! strContains n "MACOSX")).getD
              ((["MACOSX/m.dae", "a.dae", "b.dae"].filter isDaeName).getLastD ""))) :=
  ⟨(c6_zip_member_selection ["x.txt"]).1,
    by decide,
    (c6_zip_member_selection ["MACOSX/m.dae", "a.dae", "b.dae"]).2 (by decide)⟩

/-- C6 counterexample: with two plain candidates the selected member is
the *first*-seen name `"a.dae"`, not the last-seen `"b.dae"` that the
claim prescribes. -/
theorem c6_first_seen_counterexample :
    selectZipMember ["a.dae", "b.dae"] = .ok "a.dae" ∧
      selectZipMember ["a.dae", "b.dae"] ≠ .ok "b.dae" := by
  constructor
  · rfl
  · intro h
    have : "a.dae" = "b.dae" := by
      have h1 : selectZipMember ["a.dae", "b.dae"] = .ok "a.dae" := rfl
      rw [h1] at h
      exact (Except.ok.injEq _ _).mp h
    exact absurd this (by decide)

/-! ## `Collada.ignoreErrors` (collada/__init__.py)

`ignoreErrors(*args)` is documented to clear the mask when called as
`ignoreErrors(None)` and to append the given error classes otherwise.  Its
guard is `if args == [None]:` — but `args` is the variadic argument
*tuple*, and in Python a tuple never compares equal to a list, so the
clearing branch is unreachable and every call appends all of its
arguments (including a literal `None`) to `maskedErrors`. -/

/-- An argument passed to `ignoreErrors`: the `None` sentinel or an error
class. -/
inductive MaskArg where
  | noneArg
  | cls (c : ClsSpec)
  deriving DecidableEq, Repr

/-- The guard `args == [None]`: a tuple/list comparison, identically
`False` in Python whatever `args` holds. -/
def argsEqListNone (_ : List MaskArg) : Bool := false

/-- `Collada.ignoreErrors`: clear the mask if the (dead) guard fires,
else append every argument to `maskedErrors`. -/
def ignoreErrors (args maskedErrors : List MaskArg) : List MaskArg :=
  if argsEqListNone args then [] else maskedErrors ++ args

/-- C7 (code bug, evaluated at the failing input): calling
`ignoreErrors(None)` does not clear the mask — it appends the `None`
sentinel instead, because the guard compares the argument tuple to a list
and never succeeds; this contradicts the method's own docstring
(`"If you want to empty the mask ... call c.ignoreErrors(None)"`).  The
claim's other direction is correct: masking with the root class `DaeError`
suppresses every error kind through `isinstance` hierarchy matching. -/
theorem c7_ignore_errors_none_is_dead_code :
    ignoreErrors [MaskArg.noneArg] [MaskArg.cls (ClsSpec.sub EKind.brokenRef)]
        = [MaskArg.cls (ClsSpec.sub EKind.brokenRef), MaskArg.noneArg] ∧
      ignoreErrors [MaskArg.noneArg] [] = [MaskArg.noneArg] ∧
      ([MaskArg.noneArg] : List MaskArg) ≠ [] ∧
      (∀ e : DErr, isMasked [ClsSpec.daeError] e = true) :=
  ⟨rfl, rfl, by decide, fun _ => rfl⟩

/-! ## The input resolver: `Primitive._getInputsFromList`
(collada/primitive.py)

Input: the document's error state (`errors` list and `maskedErrors`), a
local scope dict mapping identities to either a source object or the
semantic-keyed dict registered for a `vertices` bundle, and a list of raw
`(offset, semantic, source, set)` tuples. -/

/-- A data source object visible in a local scope; `sid` is its Python
object identity, `id` its `id` attribute (used when expansion rebuilds a
`'#' + source.id` reference). -/
structure SObj where
  sid : Nat
  id : String
  deriving DecidableEq, Repr

/-- A value of the local scope dict: either a plain (source-like) object
or the semantic-keyed dict stored for a `vertices` alias bundle. -/
inductive ScopeEntry where
  | obj (o : SObj)
  | dict (entries : List (String × SObj))
  deriving DecidableEq, Repr

/-- A raw input tuple `(offset, semantic, source, set)` (offsets already
parsed as ints by `_getInputs`). -/
structure InTuple where
  offset : Int
  semantic : String
  source : String
  setd : Option String
  deriving DecidableEq, Repr

/-- `source[1:]`. -/
def pyTail (s : String) : String := ⟨s.data.drop 1⟩

/-- `len(source) < 2 or source[0] != '#'`. -/
def badSourceRef (s : String) : Bool :=
  s.data.length < 2 || decide (s.data.headD (Char.ofNat 0) ≠ '#')

/-- The expansion of one `VERTEX` tuple over the entries of its resolved
semantic dict: the `POSITION` entry becomes a `VERTEX` tuple, every other
entry keeps its own semantic, each referencing `'#' + source.id`. -/
def expandVertex (input : InTuple) (entries : List (String × SObj)) :
    List InTuple :=
  entries.map (fun p =>
    if p.1 = "POSITION" then
      ⟨input.offset, "VERTEX", "#" ++ p.2.id, input.setd⟩
    else
      ⟨input.offset, p.1, "#" ++ p.2.id, input.setd⟩)

/-- The first loop of `_getInputsFromList`, producing the two accumulators
`(new_inputs, to_append)`: a `VERTEX` tuple whose scope entry is a dict is
expanded into `to_append`; a tuple whose scope entry is not a dict (also
when the reference does not resolve at all) passes through into
`new_inputs`; a non-`VERTEX` tuple whose scope entry is a dict matches
neither branch and is dropped. -/
def expandGo (localscope : List (String × ScopeEntry)) :
    List InTuple → List InTuple × List InTuple
  | [] => ([], [])
  | input :: rest =>
    let acc := expandGo localscope rest
    match dictGet localscope (pyTail input.source) with
    | some (.dict entries) =>
        if input.semantic = "VERTEX" then
          (acc.1, expandVertex input entries ++ acc.2)
        else
          acc
    | _ => (input :: acc.1, acc.2)

/-- `new_inputs.extend(to_append)`: the surviving tuple list entering the
second loop. -/
def expandStep (localscope : List (String × ScopeEntry))
    (inputs : List InTuple) : List InTuple :=
  (expandGo localscope inputs).1 ++ (expandGo localscope inputs).2

/-- `Primitive._KNOWN_SEMANTICS`. -/
def knownSemantics : List String :=
  ["VERTEX", "NORMAL", "TEXCOORD", "TEXTANGENT",
   "TEXBINORMAL", "COLOR", "TANGENT", "BINORMAL"]

/-- A resolved input binding
`(offset, semantic, source, set, localscope[source_key])`. -/
structure Binding where
  offset : Int
  semantic : String
  source : String
  setd : Option String
  entry : ScopeEntry
  deriving DecidableEq, Repr

/-- The semantic-keyed output table. -/
abbrev Table : Type := List (String × List Binding)

/-- `all_inputs = \x7bsem: [] for sem in Primitive._KNOWN_SEMANTICS\x7d`. -/
def seedTable : Table := knownSemantics.map (fun s => (s, []))

/-- `all_inputs[semantic].append(input_tuple)`. -/
def tableAppend (t : Table) (s : String) (b : Binding) : Table :=
  List.map (fun p => if p.1 = s then (p.1, p.2 ++ [b]) else p) t

/-- `semantic in all_inputs`. -/
def hasKey (t : Table) (s : String) : Bool :=
  List.any t (fun p => p.1 = s)

/-- The second loop of `_getInputsFromList` over the surviving tuples:
validate the `#identity` shape (`DaeMalformedError`), resolve in scope
(`DaeBrokenRefError`), then bucket by semantic; an unknown semantic raises
`DaeUnsupportedError` through `collada.handleError` — which appends it to
the error list and re-raises unless masked — before the tuple is recorded
under its own (possibly fresh) bucket.  Returns the updated error list and
either the table or the propagated error. -/
def resolveGo (mask : List ClsSpec) (localscope : List (String × ScopeEntry)) :
    List InTuple → Table → List DErr → List DErr × Except DErr Table
  | [], t, errs => (errs, .ok t)
  | input :: rest, t, errs =>
    if badSourceRef input.source then
      (errs, .error ⟨.malformed,
        "Incorrect source id \"" ++ input.source ++ "\" in input"⟩)
    else
      match dictGet localscope (pyTail input.source) with
      | none => (errs, .error ⟨.brokenRef,
          "Source input id \"" ++ input.source ++ "\" not found"⟩)
      | some entry =>
        let b : Binding :=
          ⟨input.offset, input.semantic, input.source, input.setd, entry⟩
        if knownSemantics.contains input.semantic then
          resolveGo mask localscope rest (tableAppend t input.semantic b) errs
        else
          let e : DErr := ⟨.unsupported,
            "Unknown input semantic: " ++ input.semantic⟩
          let he := handleError mask errs e
          if he.2 then
            (he.1, .error e)
          else
            let t' := if hasKey t input.semantic then t
                      else t ++ [(input.semantic, [])]
            resolveGo mask localscope rest (tableAppend t' input.semantic b) he.1

/-- `Primitive._getInputsFromList`: expansion followed by the resolution
loop over a freshly seeded table. -/
def getInputsFromList (mask : List ClsSpec) (errors : List DErr)
    (localscope : List (String × ScopeEntry)) (inputs : List InTuple) :
    List DErr × Except DErr Table :=
  resolveGo mask localscope (expandStep localscope inputs) seedTable errors

/-- Total number of bindings across all semantic buckets. -/
def tableSize (t : Table) : Nat :=
  (List.map (fun (p : String × List Binding) => p.2.length) t).sum

/-- The key list of a table. -/
def keysOf (t : Table) : List String :=
  List.map Prod.fst t

theorem keysOf_tableAppend (t : Table) (s : String) (b : Binding) :
    keysOf (tableAppend t s b) = keysOf t := by
  induction t with
  | nil => rfl
  | cons p rest ih =>
    unfold keysOf tableAppend at ih ⊢
    by_cases hp : p.1 = s <;> simp [hp, ih]

theorem tableSize_cons (q : String × List Binding) (t : Table) :
    tableSize (q :: t) = q.2.length + tableSize t := by
  simp [tableSize]

theorem tableSize_tableAppend (t : Table) (s : String) (b : Binding)
    (hnd : (keysOf t).Nodup) (hmem : s ∈ keysOf t) :
    tableSize (tableAppend t s b) = tableSize t + 1 := by
  induction t with
  | nil => cases hmem
  | cons p rest ih =>
    rw [show keysOf (p :: rest) = p.1 :: keysOf rest from rfl] at hmem hnd
    rw [List.nodup_cons] at hnd
    by_cases hp : p.1 = s
    · have htail : tableAppend rest s b = rest := by
        unfold tableAppend
        conv_rhs => rw [← List.map_id rest]
        apply List.map_congr_left
        intro q hq
        have hqs : ¬ (q.1 = s) := by
          intro he
          apply hnd.1
          rw [hp, ← he]
          exact List.mem_map_of_mem Prod.fst hq
        simp [hqs]
      have hstep : tableAppend (p :: rest) s b
          = (p.1, p.2 ++ [b]) :: tableAppend rest s b := by
        unfold tableAppend
        rw [List.map_cons, if_pos hp]
      rw [hstep, htail, tableSize_cons, tableSize_cons]
      simp
      omega
    · have hstep : tableAppend (p :: rest) s b = p :: tableAppend rest s b := by
        unfold tableAppend
        rw [List.map_cons, if_neg hp]
      have hrest : s ∈ keysOf rest := by
        rcases List.mem_cons.mp hmem with h1 | h2
        · exact absurd h1.symm hp
        · exact h2
      rw [hstep, tableSize_cons, tableSize_cons, ih hnd.2 hrest]
      omega

theorem hasKey_iff_mem (t : Table) (s : String) :
    hasKey t s = true ↔ s ∈ keysOf t := by
  unfold hasKey keysOf
  rw [List.any_eq_true]
  constructor
  · rintro ⟨p, hp, hps⟩
    have hps2 : p.1 = s := by simpa using hps
    rw [← hps2]
    exact List.mem_map_of_mem Prod.fst hp
  · intro hs
    obtain ⟨p, hp, hps⟩ := List.mem_map.mp hs
    exact ⟨p, hp, by simpa using hps⟩

theorem tableSize_extend (t : Table) (s : String) :
    tableSize (t ++ [(s, [])]) = tableSize t := by
  unfold tableSize
  simp

theorem resolveGo_ok_size (mask : List ClsSpec)
    (localscope : List (String × ScopeEntry)) :
    ∀ (inputs : List InTuple) (t : Table) (errs errsOut : List DErr)
      (tout : Table),
      (keysOf t).Nodup →
      (∀ s, knownSemantics.contains s = true → s ∈ keysOf t) →
      resolveGo mask localscope inputs t errs = (errsOut, .ok tout) →
      tableSize tout = tableSize t + inputs.length := by
  intro inputs
  induction inputs with
  | nil =>
    intro t errs errsOut tout _ _ h
    have : t = tout := by
      simpa [resolveGo] using congrArg Prod.snd h
    simp [← this, resolveGo]
  | cons input rest ih =>
    intro t errs errsOut tout hnd hsub h
    unfold resolveGo at h
    by_cases hbad : badSourceRef input.source
    · simp [hbad] at h
    · simp only [hbad, Bool.false_eq_true, if_false] at h
      cases hget : dictGet localscope (pyTail input.source) with
      | none => rw [hget] at h; simp at h
      | some entry =>
        rw [hget] at h
        by_cases hknown : knownSemantics.contains input.semantic
        · simp only [hknown, if_true] at h
          have hmem : input.semantic ∈ keysOf t := hsub _ hknown
          have hstep := ih (tableAppend t input.semantic
              ⟨input.offset, input.semantic, input.source, input.setd, entry⟩)
            errs errsOut tout
            (by rw [keysOf_tableAppend]; exact hnd)
            (by intro s hs; rw [keysOf_tableAppend]; exact hsub s hs) h
          rw [hstep, tableSize_tableAppend t _ _ hnd hmem]
          simp [List.length_cons]
          omega
        · simp only [hknown, Bool.false_eq_true, if_false] at h
          by_cases hraise : (handleError mask errs
              ⟨.unsupported, "Unknown input semantic: " ++ input.semantic⟩).2
          · rw [if_pos hraise] at h
            simp at h
          · rw [if_neg hraise] at h
            by_cases hhas : hasKey t input.semantic
            · simp only [hhas, if_true] at h
              have hmem : input.semantic ∈ keysOf t := (hasKey_iff_mem t _).mp hhas
              have hstep := ih (tableAppend t input.semantic
                  ⟨input.offset, input.semantic, input.source, input.setd, entry⟩)
                _ errsOut tout
                (by rw [keysOf_tableAppend]; exact hnd)
                (by intro s hs; rw [keysOf_tableAppend]; exact hsub s hs) h
              rw [hstep, tableSize_tableAppend t _ _ hnd hmem]
              simp [List.length_cons]
              omega
            · simp only [hhas, Bool.false_eq_true, if_false] at h
              have hnotmem : input.semantic ∉ keysOf t := by
                intro hm
                exact hhas ((hasKey_iff_mem t _).mpr hm)
              have hnd2 : (keysOf (t ++ [(input.semantic, [])])).Nodup := by
                unfold keysOf at hnd hnotmem ⊢
                simp [List.nodup_append, hnd, hnotmem]
              have hsub2 : ∀ s, knownSemantics.contains s = true →
                  s ∈ keysOf (t ++ [(input.semantic, [])]) := by
                intro s hs
                unfold keysOf at hsub ⊢
                simp only [List.map_append]
                exact List.mem_append_left _ (hsub s hs)
              have hmem2 : input.semantic ∈ keysOf (t ++ [(input.semantic, [])]) := by
                unfold keysOf
                simp
              have hstep := ih (tableAppend (t ++ [(input.semantic, [])]) input.semantic
                  ⟨input.offset, input.semantic, input.source, input.setd, entry⟩)
                _ errsOut tout
                (by rw [keysOf_tableAppend]; exact hnd2)
                (by intro s hs; rw [keysOf_tableAppend]; exact hsub2 s hs) h
              rw [hstep, tableSize_tableAppend _ _ _ hnd2 hmem2, tableSize_extend]
              simp [List.length_cons]
              omega

theorem keysOf_seedTable : keysOf seedTable = knownSemantics := rfl

theorem expandGo_passthrough (localscope : List (String × ScopeEntry))
    (inputs : List InTuple) :
    ∀ inp ∈ inputs,
      (∀ entries, dictGet localscope (pyTail inp.source)
          ≠ some (ScopeEntry.dict entries)) →
      inp ∈ (expandGo localscope inputs).1 := by
  induction inputs with
  | nil => intro inp h; cases h
  | cons input rest ih =>
    intro inp hin hnd
    unfold expandGo
    rcases List.mem_cons.mp hin with heq | htl
    · subst heq
      cases hget : dictGet localscope (pyTail inp.source) with
      | none => simp
      | some entry =>
        cases entry with
        | obj o => simp
        | dict entries => exact absurd hget (hnd entries)
    · have hmem := ih inp htl hnd
      cases hget : dictGet localscope (pyTail input.source) with
      | none => simpa using Or.inr hmem
      | some entry =>
        cases entry with
        | obj o => simpa using Or.inr hmem
        | dict entries =>
          by_cases hv : input.semantic = "VERTEX" <;> simp [hv, hmem]

/-- C4 (amended): whenever `_getInputsFromList` returns a table, the total
number of bindings across all semantic buckets equals the number of tuples
surviving step 1's `VERTEX`-alias expansion, and a tuple whose resolved
scope entry is not a semantic dict passes through step 1 unchanged.  The
original claim's "no tuple is silently dropped" is false: a tuple whose
semantic is not `VERTEX` but whose scope entry *is* a dict matches neither
branch of step 1 and is silently discarded
(see `c4_silent_drop_counterexample`). -/
theorem c4_binding_count_conservation (mask : List ClsSpec)
    (errors : List DErr) (localscope : List (String × ScopeEntry))
    (inputs : List InTuple) (errsOut : List DErr) (tout : Table)
    (hok : getInputsFromList mask errors localscope inputs
        = (errsOut, .ok tout)) :
    tableSize tout = (expandStep localscope inputs).length ∧
      ∀ inp ∈ inputs,
        (∀ entries, dictGet localscope (pyTail inp.source)
            ≠ some (ScopeEntry.dict entries)) →
        inp ∈ expandStep localscope inputs := by
  constructor
  · have hsize := resolveGo_ok_size mask localscope
      (expandStep localscope inputs) seedTable errors errsOut tout
      (by rw [keysOf_seedTable]; decide)
      (by
        intro s hs
        rw [keysOf_seedTable]
        exact List.mem_of_elem_eq_true hs)
      hok
    rw [hsize, show tableSize seedTable = 0 from rfl]
    exact Nat.zero_add _
  · intro inp hin hnd
    exact List.mem_append_left _ (expandGo_passthrough localscope inputs inp hin hnd)

/-- Concrete scope for the C4 witness. -/
def wScope : List (String × ScopeEntry) := [("ps", ScopeEntry.obj ⟨0, "ps"⟩)]

/-- Concrete inputs for the C4 witness. -/
def wInputs : List InTuple := [⟨0, "VERTEX", "#ps", none⟩]

/-- The table produced for `wScope` / `wInputs`. -/
def wTable : Table :=
  [("VERTEX", [⟨0, "VERTEX", "#ps", none, ScopeEntry.obj ⟨0, "ps"⟩⟩]),
   ("NORMAL", []), ("TEXCOORD", []), ("TEXTANGENT", []),
   ("TEXBINORMAL", []), ("COLOR", []), ("TANGENT", []), ("BINORMAL", [])]

/-- Witness for `c4_binding_count_conservation` on a concrete resolving
input list. -/
theorem c4_binding_count_conservation_witness :
    getInputsFromList [] [] wScope wInputs = ([], .ok wTable) ∧
      (tableSize wTable = (expandStep wScope wInputs).length ∧
        ∀ inp ∈ wInputs,
          (∀ entries, dictGet wScope (pyTail inp.source)
              ≠ some (ScopeEntry.dict entries)) →
          inp ∈ expandStep wScope wInputs) :=
  ⟨by decide,
    c4_binding_count_conservation [] [] wScope wInputs [] wTable (by decide)⟩

/-- C4 counterexample: a single input tuple with semantic `NORMAL` whose
source reference resolves to a semantic dict.  Step 1 neither expands it
(not `VERTEX`) nor passes it through (its entry is a dict): resolution
succeeds with the untouched empty seed table — one input tuple, zero
bindings, silently dropped. -/
theorem c4_silent_drop_counterexample :
    getInputsFromList [] []
        [("b", ScopeEntry.dict [("NORMAL", ⟨1, "nsrc"⟩)])]
        [⟨0, "NORMAL", "#b", none⟩]
      = ([], .ok seedTable) ∧
      tableSize seedTable = 0 ∧
      ([(⟨0, "NORMAL", "#b", none⟩ : InTuple)]).length = 1 ∧
      expandStep [("b", ScopeEntry.dict [("NORMAL", ⟨1, "nsrc"⟩)])]
        [⟨0, "NORMAL", "#b", none⟩] = [] := by
  refine ⟨by decide, by decide, by decide, by decide⟩

theorem dictGet_singleton (key : String) (v : ScopeEntry) :
    dictGet [(key, v)] key = some v := by
  simp [dictGet, List.find?]

/-- C3 (amended): an input tuple with an unrecognized semantic makes the
resolver record a `DaeUnsupportedError` on the document's error list in
every case; resolution then *continues* only when `DaeUnsupportedError`
is masked (in which case the tuple appears under its own semantic bucket,
freshly added after the eight known buckets), and otherwise the error is
re-raised by `handleError` and resolution aborts — the condition is *not*
masked-by-design at the call site
(see `c3_unmasked_unknown_semantic_aborts`). -/
theorem c3_unknown_semantic_recorded (mask : List ClsSpec) (errs : List DErr)
    (off : Int) (setd : Option String) (sem key : String) (o : SObj)
    (hsem : knownSemantics.contains sem = false) (hkey : key ≠ "") :
    (getInputsFromList mask errs [(key, ScopeEntry.obj o)]
        [⟨off, sem, "#" ++ key, setd⟩]).1
      = errs ++ [⟨.unsupported, "Unknown input semantic: " ++ sem⟩] ∧
    (isMasked mask ⟨.unsupported, "Unknown input semantic: " ++ sem⟩ = true →
      (getInputsFromList mask errs [(key, ScopeEntry.obj o)]
          [⟨off, sem, "#" ++ key, setd⟩]).2
        = .ok (seedTable
            ++ [(sem, [⟨off, sem, "#" ++ key, setd, ScopeEntry.obj o⟩])])) ∧
    (isMasked mask ⟨.unsupported, "Unknown input semantic: " ++ sem⟩ = false →
      (getInputsFromList mask errs [(key, ScopeEntry.obj o)]
          [⟨off, sem, "#" ++ key, setd⟩]).2
        = .error ⟨.unsupported, "Unknown input semantic: " ++ sem⟩) := by
  have hkeyd : key.data ≠ [] := by
    intro h
    apply hkey
    have hk2 : key = ⟨key.data⟩ := rfl
    rw [hk2, h]
  have htail : pyTail ("#" ++ key) = key := rfl
  have hget : dictGet [(key, ScopeEntry.obj o)] (pyTail ("#" ++ key))
      = some (ScopeEntry.obj o) := by
    rw [htail]
    exact dictGet_singleton key (ScopeEntry.obj o)
  have hexp : expandStep [(key, ScopeEntry.obj o)] [⟨off, sem, "#" ++ key, setd⟩]
      = [⟨off, sem, "#" ++ key, setd⟩] := by
    unfold expandStep expandGo
    rw [hget]
    rfl
  have hbad : badSourceRef ("#" ++ key) = false := by
    unfold badSourceRef
    have hdata : ("#" ++ key).data = '#' :: key.data := rfl
    rw [hdata]
    cases hd : key.data with
    | nil => exact absurd hd hkeyd
    | cons c cs => simp [List.headD]
  have hsem2 : ∀ q ∈ seedTable, q.1 ≠ sem := by
    intro q hq hqs
    have hq1 : q.1 ∈ knownSemantics := by
      rw [← keysOf_seedTable]
      exact List.mem_map_of_mem Prod.fst hq
    rw [hqs] at hq1
    have hc : knownSemantics.contains sem = true := List.elem_eq_true_of_mem hq1
    rw [hc] at hsem
    cases hsem
  have hhas : hasKey seedTable sem = false := by
    by_cases h : hasKey seedTable sem
    · exfalso
      have hmem2 := (hasKey_iff_mem seedTable sem).mp h
      rw [keysOf_seedTable] at hmem2
      have hc : knownSemantics.contains sem = true := List.elem_eq_true_of_mem hmem2
      rw [hc] at hsem
      cases hsem
    · simpa using h
  have htab : tableAppend (seedTable ++ [(sem, [])]) sem
        ⟨off, sem, "#" ++ key, setd, ScopeEntry.obj o⟩
      = seedTable ++ [(sem, [⟨off, sem, "#" ++ key, setd, ScopeEntry.obj o⟩])] := by
    unfold tableAppend
    rw [List.map_append]
    congr 1
    · conv_rhs => rw [← List.map_id seedTable]
      apply List.map_congr_left
      intro q hq
      simp [hsem2 q hq]
    · simp
  have hcore : getInputsFromList mask errs [(key, ScopeEntry.obj o)]
        [⟨off, sem, "#" ++ key, setd⟩]
      = (errs ++ [⟨.unsupported, "Unknown input semantic: " ++ sem⟩],
         if isMasked mask ⟨.unsupported, "Unknown input semantic: " ++ sem⟩
         then .ok (seedTable
            ++ [(sem, [⟨off, sem, "#" ++ key, setd, ScopeEntry.obj o⟩])])
         else .error ⟨.unsupported, "Unknown input semantic: " ++ sem⟩) := by
    unfold getInputsFromList
    rw [hexp]
    unfold resolveGo
    simp only [hbad, Bool.false_eq_true, if_false, hget, hsem, hhas,
      handleError]
    by_cases hm : isMasked mask ⟨.unsupported, "Unknown input semantic: " ++ sem⟩
    · simp only [hm, decide_not, decide_True, Bool.not_true, Bool.false_eq_true,
        if_false, if_true]
      unfold resolveGo
      rw [htab]
    · rw [Bool.not_eq_true] at hm
      simp only [hm, decide_not, decide_False, Bool.not_false, if_true,
        Bool.false_eq_true, if_false]
  refine ⟨?_, ?_, ?_⟩
  · rw [hcore]
  · intro hm
    rw [hcore]
    simp [hm]
  · intro hm
    rw [hcore]
    simp [hm]

/-- Witness for `c3_unknown_semantic_recorded`: semantic `"FOO"` with the
`DaeUnsupportedError` class masked. -/
theorem c3_unknown_semantic_recorded_witness :
    knownSemantics.contains "FOO" = false ∧ ("src" : String) ≠ "" ∧
      ((getInputsFromList [ClsSpec.sub EKind.unsupported] []
          [("src", ScopeEntry.obj ⟨0, "src"⟩)] [⟨0, "FOO", "#" ++ "src", none⟩]).1
        = [] ++ [⟨.unsupported, "Unknown input semantic: " ++ "FOO"⟩] ∧
      (isMasked [ClsSpec.sub EKind.unsupported]
          ⟨.unsupported, "Unknown input semantic: " ++ "FOO"⟩ = true →
        (getInputsFromList [ClsSpec.sub EKind.unsupported] []
            [("src", ScopeEntry.obj ⟨0, "src"⟩)] [⟨0, "FOO", "#" ++ "src", none⟩]).2
          = .ok (seedTable
              ++ [("FOO", [⟨0, "FOO", "#" ++ "src", none, ScopeEntry.obj ⟨0, "src"⟩⟩])])) ∧
      (isMasked [ClsSpec.sub EKind.unsupported]
          ⟨.unsupported, "Unknown input semantic: " ++ "FOO"⟩ = false →
        (getInputsFromList [ClsSpec.sub EKind.unsupported] []
            [("src", ScopeEntry.obj ⟨0, "src"⟩)] [⟨0, "FOO", "#" ++ "src", none⟩]).2
          = .error ⟨.unsupported, "Unknown input semantic: " ++ "FOO"⟩)) :=
  ⟨by decide, by decide,
    c3_unknown_semantic_recorded [ClsSpec.sub EKind.unsupported] [] 0 none
      "FOO" "src" ⟨0, "src"⟩ (by decide) (by decide)⟩

/-- C3 counterexample: with an *empty* mask the unsupported-semantic
condition aborts resolution — `handleError` records the error and then
re-raises it, so the tuple never reaches any semantic bucket; the claim
that the condition never aborts "regardless of the configured error mask"
is false. -/
theorem c3_unmasked_unknown_semantic_aborts :
    getInputsFromList [] [] [("src", ScopeEntry.obj ⟨0, "src"⟩)]
        [⟨0, "FOO", "#src", none⟩]
      = ([⟨.unsupported, "Unknown input semantic: FOO"⟩],
         .error ⟨.unsupported, "Unknown input semantic: FOO"⟩) := by
  decide

/-! ## Node graph resolution: `Collada._loadNodes` (collada/__init__.py)

For one `library_nodes` container, every `node` child is decoded by
`scene.loadNode` (an external collaborator).  A decode attempt can:
succeed with an object (appended to `collada.nodes`), succeed with `None`
(ignored), raise `scene.DaeInstanceNotLoadedError` (the deferral signal:
the node is put on `tried_loading` with its exception), or raise another
`DaeError` (routed through `handleError`).  Deferred nodes are retried in
whole passes while the previous pass appended at least one object
(`succeeded`); when passes stop with deferred nodes remaining, the first
remaining node's deferral message is re-raised as `DaeBrokenRefError`.
Nodes are modelled by their identity string, and `scene.loadNode` by an
oracle that sees the list of node ids loaded so far. -/

/-- The outcome of one `scene.loadNode` attempt. -/
inductive LoadRes where
  | loaded (objId : Option String)
  | notYetLoaded (msg : String)
  | err (e : DErr)
  deriving DecidableEq, Repr

/-- Document state mutated by `_loadNodes`: the `nodes` collection (as
ids, in append order) and the error list. -/
structure NodesState where
  nodes : List String
  errors : List DErr
  deriving DecidableEq, Repr

/-- Result of one pass over a list of nodes. -/
structure PassResult where
  st : NodesState
  defer : List (String × String)
  succeeded : Bool
  raised : Option DErr
  deriving DecidableEq, Repr

/-- One pass: attempt each node in order; deferral conditions collect into
`defer` (with their messages), other `DaeError`s go through `handleError`
(aborting the pass when re-raised), a non-`None` decoded object is
appended to `nodes` and sets `succeeded`. -/
def passNodes (attempt : List String → String → LoadRes) (mask : List ClsSpec) :
    List String → NodesState → List (String × String) → Bool → PassResult
  | [], st, defer, succ => ⟨st, defer, succ, none⟩
  | n :: rest, st, defer, succ =>
    match attempt st.nodes n with
    | .notYetLoaded msg =>
        passNodes attempt mask rest st (defer ++ [(n, msg)]) succ
    | .err e =>
        let he := handleError mask st.errors e
        if he.2 then ⟨{ st with errors := he.1 }, defer, succ, some e⟩
        else passNodes attempt mask rest { st with errors := he.1 } defer succ
    | .loaded (some objId) =>
        passNodes attempt mask rest { st with nodes := st.nodes ++ [objId] }
          defer true
    | .loaded none => passNodes attempt mask rest st defer succ

/-- After the loop: succeed if nothing remains deferred, else re-raise the
first remaining node's deferral message as a `DaeBrokenRefError`. -/
def nodesFinish (tried : List (String × String)) (st : NodesState) :
    NodesState × Option DErr :=
  match tried with
  | [] => (st, none)
  | (_, msg) :: _ => (st, some ⟨.brokenRef, msg⟩)

theorem passNodes_defer_le (attempt : List String → String → LoadRes)
    (mask : List ClsSpec) :
    ∀ (items : List String) (st : NodesState) (defer : List (String × String))
      (succ : Bool),
      (passNodes attempt mask items st defer succ).defer.length
        ≤ defer.length + items.length := by
  intro items
  induction items with
  | nil => intro st defer succ; simp [passNodes]
  | cons n rest ih =>
    intro st defer succ
    unfold passNodes
    cases hatt : attempt st.nodes n with
    | notYetLoaded msg =>
      have hih := ih st (defer ++ [(n, msg)]) succ
      simp only [List.length_append, List.length_cons, List.length_nil]
        at hih ⊢
      omega
    | err e =>
      by_cases hr : (handleError mask st.errors e).2 <;> simp only [hr, if_true,
        Bool.false_eq_true, if_false]
      · simp
      · have hih := ih { st with errors := (handleError mask st.errors e).1 }
          defer succ
        simp only [List.length_cons]
        omega
    | loaded o =>
      cases o with
      | some objId =>
        have hih := ih { st with nodes := st.nodes ++ [objId] } defer true
        simp only [List.length_cons]
        omega
      | none =>
        have hih := ih st defer succ
        simp only [List.length_cons]
        omega

/-- When a completed pass that started with `succeeded = False` ends with
`succeeded = True`, at least one previously deferred node was resolved, so
the new deferred list is strictly shorter than the processed one.  (This
justifies the structural bound used for the loop's termination: the branch
of `retryNodes` taken when the deferred list fails to shrink can only be
reached with `succeeded = False`, where the `while` condition exits the
loop anyway.) -/
theorem passNodes_succ_shrinks (attempt : List String → String → LoadRes)
    (mask : List ClsSpec) :
    ∀ (items : List String) (st : NodesState) (defer : List (String × String)),
      (passNodes attempt mask items st defer false).raised = none →
      (passNodes attempt mask items st defer false).succeeded = true →
      (passNodes attempt mask items st defer false).defer.length
        < defer.length + items.length := by
  intro items
  induction items with
  | nil =>
    intro st defer _ hsucc
    simp [passNodes] at hsucc
  | cons n rest ih =>
    intro st defer hraise hsucc
    unfold passNodes at hraise hsucc ⊢
    cases hatt : attempt st.nodes n with
    | notYetLoaded msg =>
      simp only [hatt] at hraise hsucc
      have hih := ih st (defer ++ [(n, msg)]) hraise hsucc
      simp only [List.length_append, List.length_cons, List.length_nil]
        at hih ⊢
      omega
    | err e =>
      simp only [hatt] at hraise hsucc
      by_cases hr : (handleError mask st.errors e).2
      · simp only [hr, if_true] at hraise
        cases hraise
      · simp only [hr, Bool.false_eq_true, if_false] at hraise hsucc ⊢
        have hih := ih { st with errors := (handleError mask st.errors e).1 }
          defer hraise hsucc
        simp only [List.length_cons]
        omega
    | loaded o =>
      cases o with
      | some objId =>
        have hih := passNodes_defer_le attempt mask rest
          { st with nodes := st.nodes ++ [objId] } defer true
        simp only [List.length_cons]
        omega
      | none =>
        simp only [hatt] at hraise hsucc
        have hih := ih st defer hraise hsucc
        simp only [List.length_cons]
        omega

/-- The `while len(tried_loading) > 0 and succeeded` loop followed by the
final re-raise check.  The recursion is guarded by the strict shrinking of
the deferred list, which `passNodes_succ_shrinks` shows holds whenever the
loop would actually continue. -/
def retryNodes (attempt : List String → String → LoadRes)
    (mask : List ClsSpec) (tried : List (String × String)) (succ : Bool)
    (st : NodesState) : NodesState × Option DErr :=
  if tried ≠ [] ∧ succ = true then
    let r := passNodes attempt mask (tried.map Prod.fst) st [] false
    match r.raised with
    | some e => (r.st, some e)
    | none =>
      if hlt : r.defer.length < tried.length then
        retryNodes attempt mask r.defer r.succeeded r.st
      else
        nodesFinish r.defer r.st
  else
    nodesFinish tried st
termination_by tried.length

/-- `Collada._loadNodes` restricted to one `library_nodes` container: the
first pass over the library's `node` children, then the retry loop. -/
def loadNodesLib (attempt : List String → String → LoadRes)
    (mask : List ClsSpec) (libNodes : List String) (st : NodesState) :
    NodesState × Option DErr :=
  let r := passNodes attempt mask libNodes st [] false
  match r.raised with
  | some e => (r.st, some e)
  | none => retryNodes attempt mask r.defer r.succeeded r.st

/-- The `scene.loadNode` oracle induced by a dependency function: a node
with no dependency decodes to its own object; a node depending on `r`
defers (`DaeInstanceNotLoadedError`) until `r` appears among the loaded
nodes. -/
def depAttempt (dep : String → Option String) :
    List String → String → LoadRes :=
  fun loaded n =>
    match dep n with
    | none => .loaded (some n)
    | some r =>
        if r ∈ loaded then .loaded (some n)
        else .notYetLoaded ("Instance " ++ r ++ " not loaded yet")

/-- C5: forward-reference tolerance and fixpoint failure of the node
graph resolver.  (1) A library `[a, b]` where node `a` references node `b`
(listed after it) resolves both nodes: `a` is deferred by the first pass,
`b`'s success makes the pass count as progress, and the retry pass
resolves `a`.  (2) A library `[x, y]` where `x` references a permanently
missing identity `m` loads `y` during the first pass (the deferral of `x`
aborts nothing), re-attempts `x` in a retry pass, and only when that full
pass makes no progress with the retry set non-empty raises the deferred
reference as a `DaeBrokenRefError` carrying the deferral message — not
during the first pass. -/
theorem c5_node_fixpoint_resolution (a b x y m : String)
    (hab : a ≠ b) (hxy : x ≠ y) (hmy : m ≠ y) :
    (loadNodesLib (depAttempt (fun n => if n = a then some b else none)) []
        [a, b] ⟨[], []⟩
      = (⟨[b, a], []⟩, none)) ∧
    (loadNodesLib (depAttempt (fun n => if n = x then some m else none)) []
        [x, y] ⟨[], []⟩
      = (⟨[y], []⟩,
         some ⟨.brokenRef, "Instance " ++ m ++ " not loaded yet"⟩)) := by
  have hba : ¬ (b = a) := fun h => hab h.symm
  have hyx : ¬ (y = x) := fun h => hxy h.symm
  constructor
  · have h1 : passNodes (depAttempt (fun n => if n = a then some b else none))
        [] [a, b] ⟨[], []⟩ [] false
        = ⟨⟨[b], []⟩, [(a, "Instance " ++ b ++ " not loaded yet")], true,
           none⟩ := by
      simp [passNodes, depAttempt, hba]
    have h2 : passNodes (depAttempt (fun n => if n = a then some b else none))
        [] [a] ⟨[b], []⟩ [] false
        = ⟨⟨[b, a], []⟩, [], true, none⟩ := by
      simp [passNodes, depAttempt]
    unfold loadNodesLib
    simp only [h1]
    unfold retryNodes
    simp only [List.map_cons, List.map_nil, h2]
    norm_num
    unfold retryNodes
    simp [nodesFinish]
  · have h1 : passNodes (depAttempt (fun n => if n = x then some m else none))
        [] [x, y] ⟨[], []⟩ [] false
        = ⟨⟨[y], []⟩, [(x, "Instance " ++ m ++ " not loaded yet")], true,
           none⟩ := by
      simp [passNodes, depAttempt, hyx]
    have h2 : passNodes (depAttempt (fun n => if n = x then some m else none))
        [] [x] ⟨[y], []⟩ [] false
        = ⟨⟨[y], []⟩, [(x, "Instance " ++ m ++ " not loaded yet")], false,
           none⟩ := by
      simp [passNodes, depAttempt, hmy]
    unfold loadNodesLib
    simp only [h1]
    unfold retryNodes
    simp only [List.map_cons, List.map_nil, h2]
    norm_num [nodesFinish]

/-- Witness for `c5_node_fixpoint_resolution` at concrete node ids. -/
theorem c5_node_fixpoint_resolution_witness :
    (("a" : String) ≠ "b" ∧ ("x" : String) ≠ "y" ∧ ("missing" : String) ≠ "y") ∧
      (loadNodesLib (depAttempt (fun n => if n = "a" then some "b" else none)) []
          ["a", "b"] ⟨[], []⟩
        = (⟨["b", "a"], []⟩, none)) ∧
      (loadNodesLib (depAttempt (fun n => if n = "x" then some "missing" else none)) []
          ["x", "y"] ⟨[], []⟩
        = (⟨["y"], []⟩,
           some ⟨.brokenRef, "Instance " ++ "missing" ++ " not loaded yet"⟩)) :=
  ⟨⟨by decide, by decide, by decide⟩,
    (c5_node_fixpoint_resolution "a" "b" "x" "y" "missing"
      (by decide) (by decide) (by decide)).1,
    (c5_node_fixpoint_resolution "a" "b" "x" "y" "missing"
      (by decide) (by decide) (by decide)).2⟩

/-! ## The document tree, library parsing and `Collada.save`
(collada/__init__.py)

The ElementTree root is modelled as a list of elements.  A root element
carries its tag, its child nodes (library members), and — for the single
`scene` element — the `url` of its `instance_visual_scene` child.  Library
child nodes carry a numeric Python identity (`nid`), their tag, their `id`
attribute and a qualification flag abstracting the `find(mesh)` /
`find(skin) or find(morph)` test applied by the geometry and controller
loaders.  Equality of Lean values plays the role of Python object
identity: distinct tree nodes are given distinct `nid`s. -/

/-- A child node of a library container (one `<geometry>`, `<node>`,
`<visual_scene>`, ... element). -/
structure XNode where
  nid : Nat
  tag : String
  idAttr : Option String
  qualifies : Bool
  deriving DecidableEq, Repr

/-- An element of the document root. -/
structure XElem where
  tag : String
  children : List XNode
  ref : Option String
  deriving DecidableEq, Repr

/-- The ten entity kinds. -/
inductive Kind where
  | geometry | controller | animation | light | camera
  | image | effect | material | node | scene
  deriving DecidableEq, Repr

/-- The library container tag of each kind. -/
def libName : Kind → String
  | .geometry => "library_geometries"
  | .controller => "library_controllers"
  | .animation => "library_animations"
  | .light => "library_lights"
  | .camera => "library_cameras"
  | .image => "library_images"
  | .effect => "library_effects"
  | .material => "library_materials"
  | .node => "library_nodes"
  | .scene => "library_visual_scenes"

/-- The child element tag of each kind. -/
def childName : Kind → String
  | .geometry => "geometry"
  | .controller => "controller"
  | .animation => "animation"
  | .light => "light"
  | .camera => "camera"
  | .image => "image"
  | .effect => "effect"
  | .material => "material"
  | .node => "node"
  | .scene => "visual_scene"

/-- Whether a child node qualifies for loading: a geometry node must
contain a `mesh` sub-node and a controller node a `skin` or `morph`
sub-node (abstracted by the node's `qualifies` flag); every other kind
loads its children unconditionally. -/
def qualChild (k : Kind) (n : XNode) : Bool :=
  match k with
  | .geometry => n.qualifies
  | .controller => n.qualifies
  | _ => true

/-- The loader of one library kind (`Collada._loadGeometry` etc., eager
mode): walk every container with the kind's library tag, walk every
qualifying child with the kind's element tag, and decode it.  The
per-kind decoders are external collaborators; here each succeeds and
yields the domain object wrapping its tree node, so the collection is the
list of qualifying child nodes in document order. -/
def parseKind (k : Kind) (root : List XElem) : List XNode :=
  (root.filter (fun e => e.tag = libName k)).flatMap
    (fun e => e.children.filter
      (fun n => n.tag = childName k && qualChild k n))

/-- `list.insert(i, x)` — Python clamps an index beyond the end. -/
def pyInsert {α : Type} (l : List α) (i : Nat) (e : α) : List α :=
  l.take i ++ e :: l.drop i

theorem filter_pyInsert {α : Type} (p : α → Bool) (l : List α) (i : Nat)
    (e : α) :
    (pyInsert l i e).filter p
      = (l.take i).filter p ++ (if p e then [e] else []) ++ (l.drop i).filter p := by
  unfold pyInsert
  rw [List.filter_append, List.filter_cons]
  by_cases hp : p e <;> simp [hp]

theorem filter_pyInsert_of_not {α : Type} (p : α → Bool) (l : List α)
    (i : Nat) (e : α) (he : p e = false) :
    (pyInsert l i e).filter p = l.filter p := by
  rw [filter_pyInsert, he]
  simp only [Bool.false_eq_true, if_false, List.append_nil, List.nil_append]
  rw [← List.filter_append, List.take_append_drop]

theorem filter_pyInsert_of_nil {α : Type} (p : α → Bool) (l : List α)
    (i : Nat) (e : α) (he : p e = true) (hl : l.filter p = []) :
    (pyInsert l i e).filter p = [e] := by
  rw [filter_pyInsert, he]
  have h1 : (l.take i).filter p = [] := by
    rw [List.filter_eq_nil_iff] at hl ⊢
    exact fun a ha => hl a (List.mem_of_mem_take ha)
  have h2 : (l.drop i).filter p = [] := by
    rw [List.filter_eq_nil_iff] at hl ⊢
    exact fun a ha => hl a (List.mem_of_mem_drop ha)
  simp [h1, h2]

theorem filter_erase_of_not {α : Type} [DecidableEq α] (p : α → Bool)
    (l : List α) (a : α) (ha : p a = false) :
    (l.erase a).filter p = l.filter p := by
  induction l with
  | nil => rfl
  | cons x rest ih =>
    by_cases hx : x = a
    · subst hx
      rw [List.erase_cons_head, List.filter_cons_of_neg (by simp [ha])]
    · rw [List.erase_cons_tail (by simp [hx])]
      rw [List.filter_cons, List.filter_cons, ih]

theorem find?_eq_none_iff_filter_nil {α : Type} (p : α → Bool)
    (l : List α) : l.find? p = none ↔ l.filter p = [] := by
  rw [List.find?_eq_none, List.filter_eq_nil_iff]

theorem filter_erase_find? {α : Type} [DecidableEq α] (p : α → Bool) :
    ∀ (l : List α) (c : α), l.find? p = some c →
      (l.erase c).filter p = (l.filter p).drop 1 := by
  intro l
  induction l with
  | nil => intro c h; simp at h
  | cons x rest ih =>
    intro c h
    rw [List.find?_cons] at h
    by_cases hx : p x
    · simp only [hx] at h
      cases h
      rw [List.erase_cons_head, List.filter_cons_of_pos hx, List.drop_one,
        List.tail_cons]
    · simp only [hx, Bool.false_eq_true] at h
      have hpc : p c = true := List.find?_some h
      have hxc : ¬ (x = c) := by
        intro he
        rw [he] at hx
        exact hx hpc
      rw [List.erase_cons_tail (by simp [hxc]),
        List.filter_cons_of_neg (by simp [hx]),
        List.filter_cons_of_neg (by simp [hx])]
      exact ih c h

theorem find?_eq_head_filter {α : Type} (p : α → Bool) (l : List α) :
    l.find? p = (l.filter p).head? := by
  induction l with
  | nil => rfl
  | cons x rest ih =>
    rw [List.find?_cons, List.filter_cons]
    by_cases hx : p x
    · simp only [hx, if_true, List.head?_cons]
    · simp only [hx, Bool.false_eq_true, if_false]
      exact ih

/-- The first member loop of `save` for one library container:
`for o in arr: o.save(); if o.xmlnode not in node: node.append(o.xmlnode)`
(`o.save()` is the external per-object serializer, which rewrites the
object's own tree node in place and is the identity at this level of
modelling). -/
def appendNew (children : List XNode) (arr : List XNode) : List XNode :=
  arr.foldl (fun cur o => if o ∈ cur then cur else cur ++ [o]) children

/-- The stale-children loop of `save`:
`for n in node: if n not in xmlnodes: node.remove(n)` — CPython list
iteration with concurrent removal.  The iterator's cursor advances by one
after every yielded element while `remove` deletes the first occurrence of
the yielded value, so the element sliding into the freed slot is never
examined. -/
def pruneGo (keep : List XNode) (cur : List XNode) (i : Nat) : List XNode :=
  if h : i < cur.length then
    let n := cur.get ⟨i, h⟩
    if n ∈ keep then pruneGo keep cur (i + 1)
    else pruneGo keep (cur.erase n) (i + 1)
  else cur
termination_by cur.length - i
decreasing_by
  · omega
  · have hlen : (cur.erase (cur.get ⟨i, h⟩)).length = cur.length - 1 :=
      List.length_erase_of_mem (cur.get_mem i h)
    omega

/-- The children of a container after both member loops of `save`. -/
def syncChildren (children : List XNode) (arr : List XNode) : List XNode :=
  pruneGo arr (appendNew children arr) 0

/-- Reference recursion for `pruneGo` on duplicate-free child lists: an
element not in `keep` is removed and its successor survives unexamined. -/
def pruneSpec (keep : List XNode) : List XNode → List XNode
  | [] => []
  | x :: rest =>
    if x ∈ keep then x :: pruneSpec keep rest
    else
      match rest with
      | [] => []
      | y :: rest2 => y :: pruneSpec keep rest2

theorem pruneSpec_cons_of_mem (keep : List XNode) (x : XNode)
    (rest : List XNode) (hx : x ∈ keep) :
    pruneSpec keep (x :: rest) = x :: pruneSpec keep rest := by
  cases rest with
  | nil => simp [pruneSpec, hx]
  | cons y rest2 => simp [pruneSpec, hx]

theorem pruneSpec_single_of_not (keep : List XNode) (x : XNode)
    (hx : x ∉ keep) : pruneSpec keep [x] = [] := by
  simp [pruneSpec, hx]

theorem pruneSpec_cons2_of_not (keep : List XNode) (x y : XNode)
    (rest2 : List XNode) (hx : x ∉ keep) :
    pruneSpec keep (x :: y :: rest2) = y :: pruneSpec keep rest2 := by
  simp [pruneSpec, hx]

theorem pruneGo_stop (keep cur : List XNode) (i : Nat)
    (h : ¬ i < cur.length) : pruneGo keep cur i = cur := by
  unfold pruneGo
  rw [dif_neg h]

theorem pruneGo_eq_pruneSpec (keep : List XNode) :
    ∀ (post pre : List XNode), (pre ++ post).Nodup →
      pruneGo keep (pre ++ post) pre.length = pre ++ pruneSpec keep post
  | [], pre, _ => by
      rw [pruneGo_stop keep (pre ++ []) pre.length (by simp)]
      rfl
  | x :: rest, pre, hnd => by
      have hlt : pre.length < (pre ++ x :: rest).length := by simp
      have hget : (pre ++ x :: rest).get ⟨pre.length, hlt⟩ = x := by
        rw [List.get_eq_getElem, List.getElem_append_right (Nat.le_refl _)]
        simp
      unfold pruneGo
      rw [dif_pos hlt]
      simp only [hget]
      by_cases hx : x ∈ keep
      · rw [if_pos hx]
        have hre : pre ++ x :: rest = (pre ++ [x]) ++ rest := by simp
        have hlen : pre.length + 1 = (pre ++ [x]).length := by simp
        rw [hre, hlen, pruneGo_eq_pruneSpec keep rest (pre ++ [x])
          (by rw [← hre]; exact hnd), pruneSpec_cons_of_mem keep x rest hx]
        simp
      · rw [if_neg hx]
        have hxpre : x ∉ pre := by
          rw [List.nodup_append] at hnd
          intro hmem
          exact hnd.2.2 hmem (by simp)
        have herase : (pre ++ x :: rest).erase x = pre ++ rest := by
          rw [List.erase_append_right _ hxpre, List.erase_cons_head]
        rw [herase]
        match rest with
        | [] =>
          rw [pruneGo_stop keep (pre ++ []) (pre.length + 1) (by simp),
            pruneSpec_single_of_not keep x hx]
        | y :: rest2 =>
          have hre : pre ++ y :: rest2 = (pre ++ [y]) ++ rest2 := by simp
          have hlen : pre.length + 1 = (pre ++ [y]).length := by simp
          have hnd2 : ((pre ++ [y]) ++ rest2).Nodup := by
            rw [← hre]
            have hsub : (pre ++ y :: rest2).Sublist (pre ++ x :: y :: rest2) := by
              apply List.Sublist.append_left
              exact List.sublist_cons_self x (y :: rest2)
            exact hsub.nodup hnd
          rw [hre, hlen, pruneGo_eq_pruneSpec keep rest2 (pre ++ [y]) hnd2,
            pruneSpec_cons2_of_not keep x y rest2 hx]
          simp

theorem pruneSpec_filter (keep : List XNode) (p : XNode → Bool) :
    ∀ (post : List XNode), (∀ x ∈ post, p x = true → x ∈ keep) →
      (pruneSpec keep post).filter p = post.filter p
  | [], _ => rfl
  | x :: rest, hp => by
      by_cases hx : x ∈ keep
      · rw [pruneSpec_cons_of_mem keep x rest hx]
        rw [List.filter_cons, List.filter_cons,
          pruneSpec_filter keep p rest (fun z hz hpz => hp z (by simp [hz]) hpz)]
      · have hpx : p x = false := by
          cases hpx : p x
          · rfl
          · exact absurd (hp x (by simp) hpx) hx
        match rest with
        | [] =>
          rw [pruneSpec_single_of_not keep x hx,
            List.filter_cons_of_neg (by simp [hpx])]
        | y :: rest2 =>
          rw [pruneSpec_cons2_of_not keep x y rest2 hx,
            List.filter_cons_of_neg (show ¬ p x = true from by simp [hpx]),
            List.filter_cons, List.filter_cons,
            pruneSpec_filter keep p rest2 (fun z hz hpz => hp z (by simp [hz]) hpz)]

theorem pruneSpec_keep_mem (keep : List XNode) :
    ∀ (post : List XNode) (z : XNode), z ∈ post → z ∈ keep →
      z ∈ pruneSpec keep post
  | [], _, hz, _ => by cases hz
  | x :: rest, z, hz, hzk => by
      by_cases hx : x ∈ keep
      · rw [pruneSpec_cons_of_mem keep x rest hx]
        rcases List.mem_cons.mp hz with h1 | h2
        · exact h1 ▸ List.mem_cons_self x _
        · exact List.mem_cons_of_mem x (pruneSpec_keep_mem keep rest z h2 hzk)
      · have hzx : z ≠ x := by
          intro he
          rw [he] at hzk
          exact hx hzk
        match rest with
        | [] =>
          rcases List.mem_cons.mp hz with h1 | h2
          · exact absurd h1 hzx
          · cases h2
        | y :: rest2 =>
          rw [pruneSpec_cons2_of_not keep x y rest2 hx]
          rcases List.mem_cons.mp hz with h1 | h2
          · exact absurd h1 hzx
          · rcases List.mem_cons.mp h2 with h3 | h4
            · exact h3 ▸ List.mem_cons_self y _
            · exact List.mem_cons_of_mem y
                (pruneSpec_keep_mem keep rest2 z h4 hzk)

theorem appendNew_of_subset (children : List XNode) :
    ∀ (arr : List XNode), (∀ o ∈ arr, o ∈ children) →
      appendNew children arr = children := by
  intro arr
  induction arr generalizing children with
  | nil => intro _; rfl
  | cons o rest ih =>
    intro h
    unfold appendNew
    rw [List.foldl_cons, if_pos (h o (by simp))]
    exact ih children (fun z hz => h z (by simp [hz]))

theorem appendNew_mem_of_mem_children (children : List XNode) :
    ∀ (arr : List XNode) (z : XNode), z ∈ children →
      z ∈ appendNew children arr := by
  intro arr
  induction arr generalizing children with
  | nil => intro z hz; exact hz
  | cons o rest ih =>
    intro z hz
    unfold appendNew
    rw [List.foldl_cons]
    by_cases ho : o ∈ children
    · rw [if_pos ho]
      exact ih children z hz
    · rw [if_neg ho]
      exact ih (children ++ [o]) z (by simp [hz])

theorem appendNew_mem_of_mem_arr (children : List XNode) :
    ∀ (arr : List XNode) (z : XNode), z ∈ arr →
      z ∈ appendNew children arr := by
  intro arr
  induction arr generalizing children with
  | nil => intro z hz; cases hz
  | cons o rest ih =>
    intro z hz
    unfold appendNew
    rw [List.foldl_cons]
    rcases List.mem_cons.mp hz with h1 | h2
    · subst h1
      by_cases ho : z ∈ children
      · rw [if_pos ho]
        exact appendNew_mem_of_mem_children children rest z ho
      · rw [if_neg ho]
        exact appendNew_mem_of_mem_children (children ++ [z]) rest z (by simp)
    · by_cases ho : o ∈ children
      · rw [if_pos ho]
        exact ih children z h2
      · rw [if_neg ho]
        exact ih (children ++ [o]) z h2

theorem appendNew_nodup (children : List XNode) :
    ∀ (arr : List XNode), children.Nodup → (appendNew children arr).Nodup := by
  intro arr
  induction arr generalizing children with
  | nil => intro h; exact h
  | cons o rest ih =>
    intro h
    unfold appendNew
    rw [List.foldl_cons]
    by_cases ho : o ∈ children
    · rw [if_pos ho]
      exact ih children h
    · rw [if_neg ho]
      exact ih (children ++ [o]) (by simp [List.nodup_append, h, ho])

/-- The state of one `Collada` document: the tree root, the ten
collections (their members being the tree nodes the domain objects wrap),
and the default scene modelled by its id (`self.scene` is `None` or a
`Scene` object whose `id` attribute is consulted by `save`). -/
structure DocState where
  root : List XElem
  geometries : List XNode
  controllers : List XNode
  animations : List XNode
  lights : List XNode
  cameras : List XNode
  images : List XNode
  effects : List XNode
  materials : List XNode
  nodes : List XNode
  scenes : List XNode
  scene : Option String
  deriving DecidableEq, Repr

/-- The collection of a kind. -/
def DocState.coll (d : DocState) : Kind → List XNode
  | .geometry => d.geometries
  | .controller => d.controllers
  | .animation => d.animations
  | .light => d.lights
  | .camera => d.cameras
  | .image => d.images
  | .effect => d.effects
  | .material => d.materials
  | .node => d.nodes
  | .scene => d.scenes

/-- The `libraries` list of `save` — the animations collection is absent
from it. -/
def saveLibraries : List Kind :=
  [.geometry, .controller, .light, .camera, .image, .effect, .material,
   .node, .scene]

/-- The asset block of `save`: `assetInfo.save()` (external), remove the
first `asset` element if present, then insert the asset object's element
at position 0 (for a parsed document that is the removed element itself;
for a fresh document a fresh `asset` element). -/
def assetStep (root : List XElem) : List XElem :=
  match root.find? (fun e => e.tag = "asset") with
  | some a => a :: root.erase a
  | none => ⟨"asset", [], none⟩ :: root

/-- `library_loc`: one past the index of the last `asset` element
(`for i, node in enumerate(root): if node.tag == asset: library_loc = i+1`,
starting from 0). -/
def libraryLocGo : List XElem → Nat → Nat → Nat
  | [], _, acc => acc
  | e :: rest, i, acc =>
      libraryLocGo rest (i + 1) (if e.tag = "asset" then i + 1 else acc)

/-- `library_loc` over a root list. -/
def libraryLoc (root : List XElem) : Nat := libraryLocGo root 0 0

/-- Modify the first element with the given tag (the container returned
by `self.xmlnode.find(self.tag(name))`), replacing its children by the
result of the two member loops. -/
def updateFirstTag (root : List XElem) (name : String) (arr : List XNode) :
    List XElem :=
  match root with
  | [] => []
  | e :: rest =>
    if e.tag = name then
      { e with children := syncChildren e.children arr } :: rest
    else
      e :: updateFirstTag rest name arr

/-- The per-library body of `save`: find the container; if absent and the
collection is empty, skip; if absent and non-empty, insert a fresh empty
container at `library_loc` and sync it (being the only element with this
tag, it is the one `find` returns); if present and the collection is
empty, remove it from the root; otherwise sync the found (first)
container's children. -/
def syncLib (loc : Nat) (name : String) (arr : List XNode)
    (root : List XElem) : List XElem :=
  match root.find? (fun e => e.tag = name) with
  | none =>
    if arr.isEmpty then root
    else updateFirstTag (pyInsert root loc ⟨name, [], none⟩) name arr
  | some c =>
    if arr.isEmpty then root.erase c
    else updateFirstTag root name arr

/-- Replace the first `scene` element. -/
def setFirstScene (root : List XElem) (v : XElem) : List XElem :=
  match root with
  | [] => []
  | e :: rest =>
    if e.tag = "scene" then v :: rest else e :: setFirstScene rest v

/-- The default-scene block of `save`:
`scenenode = self.xmlnode.find(self.tag('scene'))` — `AttributeError` if
no such element exists — then `scenenode.clear()`; if a default scene is
set, check its id against the scenes collection (the `IndexedList`
membership test on the id string), raising `DaeBrokenRefError` *after*
the clear when absent, and otherwise append the
`instance_visual_scene(url='#id')` child. -/
def sceneStep (d : DocState) (root : List XElem) :
    List XElem × Option PyExc :=
  if (root.find? (fun e => e.tag = "scene")).isSome then
    match d.scene with
    | none => (setFirstScene root ⟨"scene", [], none⟩, none)
    | some sid =>
      if sid ∈ d.scenes.filterMap XNode.idAttr then
        (setFirstScene root ⟨"scene", [], some ("#" ++ sid)⟩, none)
      else
        (setFirstScene root ⟨"scene", [], none⟩,
         some (.dae ⟨.brokenRef, "Default scene " ++ sid ++ " not found"⟩))
  else
    (root, some .attributeError)

/-- The tree after the asset block and the nine library syncs of `save`
(`library_loc` is computed once, over the tree produced by the asset
block). -/
def saveRoot2 (d : DocState) : List XElem :=
  let root1 := assetStep d.root
  saveLibraries.foldl
    (fun r k => syncLib (libraryLoc root1) (libName k) (d.coll k) r) root1

/-- `Collada.save` (with output validation disabled): the asset block,
the nine library syncs, then the default-scene block.  Mutations persist
up to the point where an exception is raised, so the returned state is
valid in the error case too. -/
def save (d : DocState) : DocState × Option PyExc :=
  let out := sceneStep d (saveRoot2 d)
  ({ d with root := out.1 }, out.2)

/-- `s.startswith('#')`. -/
def startsHash (s : String) : Bool :=
  match s.data with
  | c :: _ => c = '#'
  | [] => false

/-- `Collada.__init__` on an already-parsed tree, eager mode, empty error
mask, with every external per-kind decoder succeeding: load the ten
collections, then resolve the default scene
(`find('scene/instance_visual_scene')`, check the `#` prefix, look the id
up in the scenes collection); a malformed or broken default-scene
reference aborts construction (`handleError` with an empty mask
re-raises), yielding `none`. -/
def parseDoc (root : List XElem) : Option DocState :=
  let d0 : DocState :=
    ⟨root, parseKind .geometry root, parseKind .controller root,
     parseKind .animation root, parseKind .light root,
     parseKind .camera root, parseKind .image root,
     parseKind .effect root, parseKind .material root,
     parseKind .node root, parseKind .scene root, none⟩
  match (root.filterMap
      (fun e => if e.tag = "scene" then e.ref else none)).head? with
  | none => some d0
  | some url =>
    if startsHash url then
      if (pyTail url) ∈ (parseKind .scene root).filterMap XNode.idAttr then
        some { d0 with scene := some (pyTail url) }
      else
        none
    else
      none

/-! Characterization of `save`'s effect on the sublist of root elements
carrying one tag. -/

/-- The sublist of root elements with the given tag, in document order. -/
def filterTag (root : List XElem) (name : String) : List XElem :=
  root.filter (fun e => e.tag = name)

theorem parseKind_eq_filterTag (k : Kind) (root : List XElem) :
    parseKind k root = (filterTag root (libName k)).flatMap
      (fun e => e.children.filter
        (fun n => n.tag = childName k && qualChild k n)) := rfl

/-- The effect of one library sync on its own tag's projection. -/
def syncFilterProj (name : String) (fl : List XElem) (arr : List XNode) :
    List XElem :=
  match fl with
  | [] => if arr.isEmpty then [] else [⟨name, syncChildren [] arr, none⟩]
  | c :: rest =>
    if arr.isEmpty then rest
    else { c with children := syncChildren c.children arr } :: rest

theorem updateFirstTag_filter_self (name : String) (arr : List XNode) :
    ∀ (root : List XElem),
      filterTag (updateFirstTag root name arr) name
        = match filterTag root name with
          | [] => []
          | c :: rest =>
            { c with children := syncChildren c.children arr } :: rest := by
  intro root
  induction root with
  | nil => rfl
  | cons e rest ih =>
    unfold updateFirstTag filterTag
    by_cases he : e.tag = name
    · rw [if_pos he, List.filter_cons_of_pos (by simp [he]),
        List.filter_cons_of_pos (by simp [he])]
    · rw [if_neg he, List.filter_cons_of_neg (by simp [he]),
        List.filter_cons_of_neg (by simp [he])]
      exact ih

theorem updateFirstTag_filter_other (name other : String) (arr : List XNode)
    (hne : other ≠ name) :
    ∀ (root : List XElem),
      filterTag (updateFirstTag root name arr) other = filterTag root other := by
  intro root
  induction root with
  | nil => rfl
  | cons e rest ih =>
    unfold updateFirstTag filterTag
    by_cases he : e.tag = name
    · have heo : ¬ (e.tag = other) := by
        rw [he]
        exact fun h => hne h.symm
      rw [if_pos he, List.filter_cons_of_neg (by simp [heo]),
        List.filter_cons_of_neg (by simp [heo])]
    · rw [if_neg he, List.filter_cons, List.filter_cons]
      unfold filterTag at ih
      rw [ih]

theorem syncLib_filter_self (loc : Nat) (name : String) (arr : List XNode)
    (root : List XElem) :
    filterTag (syncLib loc name arr root) name
      = syncFilterProj name (filterTag root name) arr := by
  unfold syncLib
  cases hfind : root.find? (fun e => e.tag = name) with
  | none =>
    have hnil : filterTag root name = [] :=
      (find?_eq_none_iff_filter_nil _ root).mp hfind
    dsimp only
    by_cases harr : arr.isEmpty
    · rw [if_pos harr, hnil]
      simp [syncFilterProj, harr]
    · rw [if_neg harr]
      have hins : filterTag (pyInsert root loc ⟨name, [], none⟩) name
          = [⟨name, [], none⟩] := by
        unfold filterTag
        exact filter_pyInsert_of_nil _ root loc _ (by simp) hnil
      rw [updateFirstTag_filter_self name arr _, hins, hnil]
      simp [syncFilterProj, harr]
  | some c =>
    dsimp only
    have hhead : (filterTag root name).head? = some c := by
      unfold filterTag
      rw [← find?_eq_head_filter]
      exact hfind
    obtain ⟨rest, hrest⟩ : ∃ rest, filterTag root name = c :: rest := by
      cases hf : filterTag root name with
      | nil => rw [hf] at hhead; cases hhead
      | cons a b =>
        rw [hf] at hhead
        simp only [List.head?_cons, Option.some.injEq] at hhead
        exact ⟨b, by rw [hhead]⟩
    by_cases harr : arr.isEmpty
    · rw [if_pos harr, hrest]
      have hlhs : filterTag (root.erase c) name = rest := by
        unfold filterTag
        rw [filter_erase_find? _ root c hfind]
        unfold filterTag at hrest
        rw [hrest, List.drop_one, List.tail_cons]
      rw [hlhs]
      simp [syncFilterProj, harr]
    · rw [if_neg harr, updateFirstTag_filter_self name arr root, hrest]
      simp [syncFilterProj, harr]

theorem syncLib_filter_other (loc : Nat) (name other : String)
    (arr : List XNode) (root : List XElem) (hne : other ≠ name) :
    filterTag (syncLib loc name arr root) other = filterTag root other := by
  have hne2 : ¬ (name = other) := fun h => hne h.symm
  unfold syncLib
  cases hfind : root.find? (fun e => e.tag = name) with
  | none =>
    dsimp only
    by_cases harr : arr.isEmpty
    · rw [if_pos harr]
    · rw [if_neg harr, updateFirstTag_filter_other name other arr hne]
      unfold filterTag
      exact filter_pyInsert_of_not _ root loc _ (by simp [hne2])
  | some c =>
    dsimp only
    have hc : c.tag = name := by simpa using List.find?_some hfind
    by_cases harr : arr.isEmpty
    · rw [if_pos harr]
      unfold filterTag
      exact filter_erase_of_not _ root c (by simp [hc, hne2])
    · rw [if_neg harr]
      exact updateFirstTag_filter_other name other arr hne root

theorem assetStep_filter (root : List XElem) (other : String)
    (hne : other ≠ "asset") :
    filterTag (assetStep root) other = filterTag root other := by
  have hne2 : ¬ ("asset" = other) := fun h => hne h.symm
  unfold assetStep
  cases hfind : root.find? (fun e => e.tag = "asset") with
  | none =>
    unfold filterTag
    rw [List.filter_cons_of_neg (by simp [hne2])]
  | some a =>
    have ha : a.tag = "asset" := by simpa using List.find?_some hfind
    unfold filterTag
    rw [List.filter_cons_of_neg (by simp [ha, hne2])]
    exact filter_erase_of_not _ root a (by simp [ha, hne2])

theorem setFirstScene_filter_other (root : List XElem) (v : XElem)
    (other : String) (hv : ¬ (v.tag = other)) (hs : ¬ ("scene" = other)) :
    filterTag (setFirstScene root v) other = filterTag root other := by
  induction root with
  | nil => rfl
  | cons e rest ih =>
    unfold setFirstScene filterTag
    by_cases he : e.tag = "scene"
    · have heo : ¬ (e.tag = other) := by
        rw [he]
        exact hs
      rw [if_pos he, List.filter_cons_of_neg (by simp [hv]),
        List.filter_cons_of_neg (by simp [heo])]
    · rw [if_neg he, List.filter_cons, List.filter_cons]
      unfold filterTag at ih
      rw [ih]

theorem sceneStep_filter (d : DocState) (root : List XElem) (other : String)
    (hs : other ≠ "scene") :
    filterTag (sceneStep d root).1 other = filterTag root other := by
  have hs2 : ¬ ("scene" = other) := fun h => hs h.symm
  unfold sceneStep
  by_cases hfind : (root.find? (fun e => e.tag = "scene")).isSome
  · rw [if_pos hfind]
    cases d.scene with
    | none =>
      exact setFirstScene_filter_other root _ other (by simp [hs2]) hs2
    | some sid =>
      dsimp only
      by_cases hmem : sid ∈ d.scenes.filterMap XNode.idAttr
      · rw [if_pos hmem]
        exact setFirstScene_filter_other root _ other (by simp [hs2]) hs2
      · rw [if_neg hmem]
        exact setFirstScene_filter_other root _ other (by simp [hs2]) hs2
  · rw [if_neg hfind]

theorem foldl_syncLib_other (loc : Nat) (coll : Kind → List XNode)
    (name : String) :
    ∀ (ks : List Kind) (root : List XElem),
      (∀ j ∈ ks, libName j ≠ name) →
      filterTag (ks.foldl (fun r k => syncLib loc (libName k) (coll k) r) root)
          name
        = filterTag root name := by
  intro ks
  induction ks with
  | nil => intro root _; rfl
  | cons j rest ih =>
    intro root hj
    rw [List.foldl_cons, ih _ (fun i hi => hj i (by simp [hi])),
      syncLib_filter_other loc (libName j) name (coll j) root
        (fun h => hj j (by simp) h.symm)]

theorem foldl_syncLib_mem (loc : Nat) (coll : Kind → List XNode) :
    ∀ (ks : List Kind) (root : List XElem) (k : Kind), k ∈ ks →
      ks.Pairwise (fun a b => libName a ≠ libName b) →
      filterTag (ks.foldl (fun j r => syncLib loc (libName r) (coll r) j) root)
          (libName k)
        = syncFilterProj (libName k) (filterTag root (libName k)) (coll k) := by
  intro ks
  induction ks with
  | nil => intro root k hk; cases hk
  | cons j rest ih =>
    intro root k hk hpw
    rw [List.pairwise_cons] at hpw
    rw [List.foldl_cons]
    rcases List.mem_cons.mp hk with h1 | h2
    · subst h1
      rw [foldl_syncLib_other loc coll (libName k) rest _
        (fun i hi => (hpw.1 i hi).symm)]
      exact syncLib_filter_self loc (libName k) (coll k) root
    · rw [ih _ k h2 hpw.2,
        syncLib_filter_other loc (libName j) (libName k) (coll j) root
          (hpw.1 k h2).symm]

theorem libName_ne_scene (k : Kind) : libName k ≠ "scene" := by
  cases k <;> decide

theorem libName_ne_asset (k : Kind) : libName k ≠ "asset" := by
  cases k <;> decide

theorem saveLibraries_pairwise :
    saveLibraries.Pairwise (fun a b => libName a ≠ libName b) := by
  decide

/-- The effect of `save` on the containers of a kind in the `libraries`
list: exactly the per-library sync applied to that kind's containers. -/
theorem save_filter_synced (d : DocState) (k : Kind)
    (hk : k ∈ saveLibraries) :
    filterTag (save d).1.root (libName k)
      = syncFilterProj (libName k)
          (filterTag d.root (libName k)) (d.coll k) := by
  unfold save saveRoot2
  rw [sceneStep_filter d _ (libName k) (libName_ne_scene k),
    foldl_syncLib_mem _ d.coll saveLibraries _ k hk saveLibraries_pairwise,
    assetStep_filter d.root (libName k) (libName_ne_asset k)]

/-- `save` never touches the animations containers: the animations
collection is missing from its `libraries` list. -/
theorem save_filter_animations (d : DocState) :
    filterTag (save d).1.root "library_animations"
      = filterTag d.root "library_animations" := by
  unfold save saveRoot2
  rw [sceneStep_filter d _ "library_animations" (by decide),
    foldl_syncLib_other _ d.coll "library_animations" saveLibraries _
      (by decide),
    assetStep_filter d.root "library_animations" (by decide)]

/-! Scene-element projection and synced-children lemmas. -/

theorem saveRoot2_filter_scene (d : DocState) :
    filterTag (saveRoot2 d) "scene" = filterTag d.root "scene" := by
  unfold saveRoot2
  rw [foldl_syncLib_other _ d.coll "scene" saveLibraries _ (by decide),
    assetStep_filter d.root "scene" (by decide)]

theorem setFirstScene_filter_self (root : List XElem) (v : XElem)
    (hv : v.tag = "scene") :
    filterTag (setFirstScene root v) "scene"
      = match filterTag root "scene" with
        | [] => []
        | _ :: rest => v :: rest := by
  induction root with
  | nil => rfl
  | cons e rest ih =>
    unfold setFirstScene filterTag
    by_cases he : e.tag = "scene"
    · rw [if_pos he, List.filter_cons_of_pos (by simp [hv]),
        List.filter_cons_of_pos (by simp [he])]
    · rw [if_neg he, List.filter_cons_of_neg (by simp [he]),
        List.filter_cons_of_neg (by simp [he])]
      exact ih

theorem sceneRefs_eq (root : List XElem) :
    root.filterMap (fun e => if e.tag = "scene" then e.ref else none)
      = (filterTag root "scene").filterMap XElem.ref := by
  induction root with
  | nil => rfl
  | cons e rest ih =>
    unfold filterTag
    by_cases he : e.tag = "scene"
    · rw [List.filterMap_cons, List.filter_cons_of_pos (by simp [he]),
        List.filterMap_cons]
      rw [if_pos he]
      unfold filterTag at ih
      cases e.ref <;> simp [ih]
    · rw [List.filterMap_cons, List.filter_cons_of_neg (by simp [he])]
      rw [if_neg he]
      unfold filterTag at ih
      simp [ih]

theorem syncChildren_eq_pruneSpec (ch arr : List XNode) (hnd : ch.Nodup)
    (hsub : ∀ o ∈ arr, o ∈ ch) :
    syncChildren ch arr = pruneSpec arr ch := by
  unfold syncChildren
  rw [appendNew_of_subset ch arr hsub]
  have h := pruneGo_eq_pruneSpec arr ch [] (by simpa using hnd)
  simpa using h

theorem syncChildren_mem (ch arr : List XNode) (hnd : ch.Nodup) :
    ∀ o ∈ arr, o ∈ syncChildren ch arr := by
  intro o ho
  unfold syncChildren
  have hnd2 : (appendNew ch arr).Nodup := appendNew_nodup ch arr hnd
  have heq := pruneGo_eq_pruneSpec arr (appendNew ch arr) [] (by simpa using hnd2)
  rw [show pruneGo arr (appendNew ch arr) 0
      = pruneSpec arr (appendNew ch arr) from by simpa using heq]
  exact pruneSpec_keep_mem arr _ o (appendNew_mem_of_mem_arr ch arr o ho) ho

/-! Position of the asset element: `save` moves (or creates) the asset
element at index 0 and every container operation happens strictly after
it (`library_loc ≥ 1`, and removals and updates target elements whose tag
is a library name, never `asset`). -/

theorem libraryLocGo_ge : ∀ (l : List XElem) (i acc : Nat), acc ≤ i →
    acc ≤ libraryLocGo l i acc := by
  intro l
  induction l with
  | nil => intro i acc h; exact Nat.le_refl acc
  | cons e rest ih =>
    intro i acc h
    unfold libraryLocGo
    by_cases he : e.tag = "asset"
    · rw [if_pos he]
      calc acc ≤ i + 1 := Nat.le_succ_of_le h
        _ ≤ libraryLocGo rest (i + 1) (i + 1) := ih (i + 1) (i + 1) (Nat.le_refl _)
    · rw [if_neg he]
      exact ih (i + 1) acc (Nat.le_succ_of_le h)

theorem libraryLoc_cons_asset (a : XElem) (rest : List XElem)
    (ha : a.tag = "asset") : 1 ≤ libraryLoc (a :: rest) := by
  unfold libraryLoc libraryLocGo
  rw [if_pos ha]
  exact libraryLocGo_ge rest 1 1 (Nat.le_refl 1)

theorem pyInsert_cons {α : Type} (a : α) (l : List α) (i : Nat) (e : α) :
    pyInsert (a :: l) (i + 1) e = a :: pyInsert l i e := by
  unfold pyInsert
  rw [List.take_succ_cons, List.drop_succ_cons]
  rfl

theorem assetStep_head (root : List XElem) :
    ∃ (a : XElem) (rest : List XElem),
      assetStep root = a :: rest ∧ a.tag = "asset" := by
  unfold assetStep
  cases hfind : root.find? (fun e => e.tag = "asset") with
  | none => exact ⟨⟨"asset", [], none⟩, root, rfl, rfl⟩
  | some a =>
    have ha : a.tag = "asset" := by simpa using List.find?_some hfind
    exact ⟨a, root.erase a, rfl, ha⟩

theorem syncLib_head (a : XElem) (rest0 : List XElem) (loc : Nat)
    (name : String) (arr : List XNode) (ha : a.tag = "asset")
    (hname : name ≠ "asset") (hloc : 1 ≤ loc) :
    ∃ rest1, syncLib loc name arr (a :: rest0) = a :: rest1 := by
  have hne : ¬ (a.tag = name) := by
    rw [ha]
    exact fun h => hname h.symm
  unfold syncLib
  cases hfind : (a :: rest0).find? (fun e => e.tag = name) with
  | none =>
    dsimp only
    by_cases harr : arr.isEmpty
    · rw [if_pos harr]
      exact ⟨rest0, rfl⟩
    · rw [if_neg harr]
      obtain ⟨j, hj⟩ : ∃ j, loc = j + 1 := ⟨loc - 1, by omega⟩
      rw [hj, pyInsert_cons]
      unfold updateFirstTag
      rw [if_neg hne]
      exact ⟨_, rfl⟩
  | some c =>
    dsimp only
    have hc : c.tag = name := by simpa using List.find?_some hfind
    have hac : ¬ (a = c) := by
      intro h
      rw [h, hc] at ha
      exact hname ha
    by_cases harr : arr.isEmpty
    · rw [if_pos harr, List.erase_cons_tail (by simp [hac])]
      exact ⟨_, rfl⟩
    · rw [if_neg harr]
      unfold updateFirstTag
      rw [if_neg hne]
      exact ⟨_, rfl⟩

theorem foldl_syncLib_head (loc : Nat) (coll : Kind → List XNode)
    (a : XElem) (ha : a.tag = "asset") (hloc : 1 ≤ loc) :
    ∀ (ks : List Kind) (rest0 : List XElem),
      (∀ j ∈ ks, libName j ≠ "asset") →
      ∃ rest1, ks.foldl (fun r k => syncLib loc (libName k) (coll k) r)
          (a :: rest0) = a :: rest1 := by
  intro ks
  induction ks with
  | nil => intro rest0 _; exact ⟨rest0, rfl⟩
  | cons j rest ih =>
    intro rest0 hj
    rw [List.foldl_cons]
    obtain ⟨r1, hr1⟩ := syncLib_head a rest0 loc (libName j) (coll j) ha
      (hj j (by simp)) hloc
    rw [hr1]
    exact ih r1 (fun i hi => hj i (by simp [hi]))

theorem setFirstScene_head (a : XElem) (rest : List XElem) (v : XElem)
    (ha : a.tag = "asset") :
    setFirstScene (a :: rest) v = a :: setFirstScene rest v := by
  unfold setFirstScene
  rw [if_neg (by rw [ha]; decide)]
  cases rest <;> rfl

/-- After `save`, the first root element is the asset element: the asset
block moves (or creates) it at index 0, `library_loc` is at least 1, and
every later operation leaves the head in place. -/
theorem save_head_asset (d : DocState) :
    ((save d).1.root.head?.map XElem.tag) = some "asset" := by
  obtain ⟨a, rest, hrest, ha⟩ := assetStep_head d.root
  have hloc : 1 ≤ libraryLoc (a :: rest) := libraryLoc_cons_asset a rest ha
  obtain ⟨rest1, hrest1⟩ := foldl_syncLib_head (libraryLoc (a :: rest))
    d.coll a ha hloc saveLibraries rest (fun j _ => libName_ne_asset j)
  have hroot2 : saveRoot2 d = a :: rest1 := by
    unfold saveRoot2
    rw [hrest]
    exact hrest1
  show ((sceneStep d (saveRoot2 d)).1.head?.map XElem.tag) = some "asset"
  unfold sceneStep
  by_cases hfind : ((saveRoot2 d).find? (fun e => e.tag = "scene")).isSome
  · rw [if_pos hfind]
    cases d.scene with
    | none =>
      rw [hroot2, setFirstScene_head a rest1 _ ha]
      simp [ha]
    | some sid =>
      dsimp only
      by_cases hmem : sid ∈ d.scenes.filterMap XNode.idAttr
      · rw [if_pos hmem, hroot2, setFirstScene_head a rest1 _ ha]
        simp [ha]
      · rw [if_neg hmem, hroot2, setFirstScene_head a rest1 _ ha]
        simp [ha]
  · rw [if_neg hfind, hroot2]
    simp [ha]

theorem parseDoc_spec (T : List XElem) (D : DocState)
    (h : parseDoc T = some D) :
    D.root = T ∧ (∀ k, D.coll k = parseKind k T) ∧
      ((T.filterMap (fun e => if e.tag = "scene" then e.ref else none)).head?
          = none → D.scene = none) ∧
      (∀ url,
        (T.filterMap (fun e => if e.tag = "scene" then e.ref else none)).head?
            = some url →
          startsHash url = true ∧ D.scene = some (pyTail url) ∧
            (pyTail url) ∈ (parseKind .scene T).filterMap XNode.idAttr) := by
  unfold parseDoc at h
  cases hhead : (T.filterMap
      (fun e => if e.tag = "scene" then e.ref else none)).head? with
  | none =>
    rw [hhead] at h
    dsimp only at h
    injection h with h2
    subst h2
    refine ⟨rfl, fun k => by cases k <;> rfl, fun _ => rfl, ?_⟩
    intro url hurl
    cases hurl
  | some url0 =>
    rw [hhead] at h
    dsimp only at h
    by_cases h1 : startsHash url0
    · rw [if_pos h1] at h
      by_cases h2 : (pyTail url0) ∈ (parseKind .scene T).filterMap XNode.idAttr
      · rw [if_pos h2] at h
        injection h with h3
        subst h3
        refine ⟨rfl, fun k => by cases k <;> rfl, ?_, ?_⟩
        · intro hn
          cases hn
        · intro url hurl
          injection hurl with hurl2
          subst hurl2
          exact ⟨h1, rfl, h2⟩
      · rw [if_neg h2] at h
        cases h
    · rw [if_neg h1] at h
      cases h

/-- The qualifying-children predicate of a kind's loader. -/
def qualPred (k : Kind) : XNode → Bool :=
  fun n => n.tag = childName k && qualChild k n

theorem parseKind_save (d : DocState) (k : Kind) (hk : k ∈ saveLibraries)
    (hnd : ∀ e ∈ d.root, e.children.Nodup)
    (hcoll : d.coll k = parseKind k d.root)
    (huniq : (filterTag d.root (libName k)).length ≤ 1) :
    parseKind k (save d).1.root = parseKind k d.root := by
  rw [parseKind_eq_filterTag, save_filter_synced d k hk]
  match hfl : filterTag d.root (libName k) with
  | [] =>
    have hpk : parseKind k d.root = [] := by
      rw [parseKind_eq_filterTag, hfl]
      rfl
    rw [hcoll, hpk]
    rfl
  | [c] =>
    have hpk : parseKind k d.root = c.children.filter (qualPred k) := by
      rw [parseKind_eq_filterTag, hfl]
      simp only [List.flatMap_cons, List.flatMap_nil, List.append_nil]
      rfl
    have hcin : c ∈ d.root := by
      have : c ∈ filterTag d.root (libName k) := by
        rw [hfl]
        simp
      exact List.mem_of_mem_filter this
    have hchnd : c.children.Nodup := hnd c hcin
    rw [hcoll, hpk]
    by_cases harr : (c.children.filter (qualPred k)).isEmpty
    · unfold syncFilterProj
      rw [if_pos harr]
      have : c.children.filter (qualPred k) = [] := by
        rwa [List.isEmpty_iff] at harr
      rw [this]
      rfl
    · unfold syncFilterProj
      dsimp only
      rw [if_neg harr]
      simp only [List.flatMap_cons, List.flatMap_nil, List.append_nil]
      rw [syncChildren_eq_pruneSpec c.children _ hchnd
        (fun o ho => List.mem_of_mem_filter ho)]
      exact pruneSpec_filter _ (qualPred k) c.children
        (fun x hx hqx => List.mem_filter.mpr ⟨hx, hqx⟩)
  | c1 :: c2 :: rest =>
    exfalso
    rw [hfl] at huniq
    simp at huniq

theorem parseKind_save_animation (d : DocState) :
    parseKind .animation (save d).1.root = parseKind .animation d.root := by
  rw [parseKind_eq_filterTag, parseKind_eq_filterTag]
  rw [show libName .animation = "library_animations" from rfl,
    save_filter_animations d]

theorem parseKind_save_all (d : DocState)
    (hnd : ∀ e ∈ d.root, e.children.Nodup)
    (hcolls : ∀ k, d.coll k = parseKind k d.root)
    (huniq : ∀ k, (filterTag d.root (libName k)).length ≤ 1) :
    ∀ k, parseKind k (save d).1.root = parseKind k d.root := by
  intro k
  cases k with
  | animation => exact parseKind_save_animation d
  | geometry => exact parseKind_save d _ (by decide) hnd (hcolls _) (huniq _)
  | controller => exact parseKind_save d _ (by decide) hnd (hcolls _) (huniq _)
  | light => exact parseKind_save d _ (by decide) hnd (hcolls _) (huniq _)
  | camera => exact parseKind_save d _ (by decide) hnd (hcolls _) (huniq _)
  | image => exact parseKind_save d _ (by decide) hnd (hcolls _) (huniq _)
  | effect => exact parseKind_save d _ (by decide) hnd (hcolls _) (huniq _)
  | material => exact parseKind_save d _ (by decide) hnd (hcolls _) (huniq _)
  | node => exact parseKind_save d _ (by decide) hnd (hcolls _) (huniq _)
  | scene => exact parseKind_save d _ (by decide) hnd (hcolls _) (huniq _)


/-! Computation lemmas for the default-scene block and for `parseDoc` on
a tree whose scene element is unique. -/

theorem isSome_find_scene (root : List XElem)
    (h : filterTag root "scene" ≠ []) :
    (root.find? (fun e => e.tag = "scene")).isSome = true := by
  cases hf : root.find? (fun e => e.tag = "scene") with
  | none =>
    exfalso
    exact h ((find?_eq_none_iff_filter_nil _ root).mp hf)
  | some c => rfl

theorem sceneStep_none (d : DocState) (root : List XElem)
    (hfind : (root.find? (fun e => e.tag = "scene")).isSome = true)
    (hs : d.scene = none) :
    sceneStep d root = (setFirstScene root ⟨"scene", [], none⟩, none) := by
  unfold sceneStep
  rw [if_pos hfind, hs]

theorem sceneStep_found (d : DocState) (root : List XElem) (sid : String)
    (hfind : (root.find? (fun e => e.tag = "scene")).isSome = true)
    (hs : d.scene = some sid)
    (hmem : sid ∈ d.scenes.filterMap XNode.idAttr) :
    sceneStep d root
      = (setFirstScene root ⟨"scene", [], some ("#" ++ sid)⟩, none) := by
  unfold sceneStep
  rw [if_pos hfind, hs]
  dsimp only
  rw [if_pos hmem]

theorem sceneStep_broken (d : DocState) (root : List XElem) (sid : String)
    (hfind : (root.find? (fun e => e.tag = "scene")).isSome = true)
    (hs : d.scene = some sid)
    (hmem : sid ∉ d.scenes.filterMap XNode.idAttr) :
    sceneStep d root
      = (setFirstScene root ⟨"scene", [], none⟩,
         some (.dae ⟨.brokenRef,
           "Default scene " ++ sid ++ " not found"⟩)) := by
  unfold sceneStep
  rw [if_pos hfind, hs]
  dsimp only
  rw [if_neg hmem]

theorem refsHead_of_single (root : List XElem) (v : XElem)
    (h : filterTag root "scene" = [v]) :
    (root.filterMap
      (fun e => if e.tag = "scene" then e.ref else none)).head? = v.ref := by
  rw [sceneRefs_eq, h]
  cases hv : v.ref with
  | none => simp [List.filterMap_cons, List.filterMap_nil, hv]
  | some r => simp [List.filterMap_cons, List.filterMap_nil, hv]

/-- The document state `parseDoc` builds over a root, before the
default-scene resolution. -/
def parsedState (root : List XElem) (sc : Option String) : DocState :=
  ⟨root, parseKind .geometry root, parseKind .controller root,
   parseKind .animation root, parseKind .light root,
   parseKind .camera root, parseKind .image root,
   parseKind .effect root, parseKind .material root,
   parseKind .node root, parseKind .scene root, sc⟩

theorem parsedState_coll (root : List XElem) (sc : Option String) :
    ∀ k, (parsedState root sc).coll k = parseKind k root := by
  intro k
  cases k <;> rfl

theorem parseDoc_refs_none (root : List XElem)
    (h : (root.filterMap
      (fun e => if e.tag = "scene" then e.ref else none)).head? = none) :
    parseDoc root = some (parsedState root none) := by
  unfold parseDoc
  rw [h]
  rfl

theorem parseDoc_refs_hash (root : List XElem) (sid : String)
    (h : (root.filterMap
        (fun e => if e.tag = "scene" then e.ref else none)).head?
      = some ("#" ++ sid))
    (hmem : sid ∈ (parseKind .scene root).filterMap XNode.idAttr) :
    parseDoc root = some (parsedState root (some sid)) := by
  unfold parseDoc
  rw [h]
  dsimp only
  rw [if_pos (show startsHash ("#" ++ sid) = true from rfl)]
  rw [if_pos (show pyTail ("#" ++ sid)
      ∈ (parseKind .scene root).filterMap XNode.idAttr from hmem)]
  rfl


/-- Container management of `save` for the nine synced kinds: an empty
collection's container is removed (or never created), a non-empty
collection gets exactly one container carrying every member among its
children. -/
theorem saveContainers (d : DocState)
    (hnd : ∀ e ∈ d.root, e.children.Nodup)
    (huniq : ∀ k, (filterTag d.root (libName k)).length ≤ 1) :
    ∀ k ∈ saveLibraries,
      (d.coll k = [] → filterTag (save d).1.root (libName k) = []) ∧
      (d.coll k ≠ [] →
        ∃ c, filterTag (save d).1.root (libName k) = [c] ∧
          c.tag = libName k ∧ ∀ o ∈ d.coll k, o ∈ c.children) := by
  intro k hk
  have hsf := save_filter_synced d k hk
  have h01 : filterTag d.root (libName k) = []
      ∨ ∃ c0, filterTag d.root (libName k) = [c0] := by
    match hfl : filterTag d.root (libName k) with
    | [] => exact Or.inl rfl
    | [c] => exact Or.inr ⟨c, rfl⟩
    | a :: b :: t =>
      have hlen := huniq k
      rw [hfl] at hlen
      simp at hlen
  constructor
  · intro hempty
    rw [hsf, hempty]
    rcases h01 with hfl | ⟨c0, hfl⟩
    · rw [hfl]
      rfl
    · rw [hfl]
      rfl
  · intro hne
    have harr : ¬ ((d.coll k).isEmpty = true) := by
      cases hc : d.coll k with
      | nil => exact absurd hc hne
      | cons a l => simp
    rw [hsf]
    rcases h01 with hfl | ⟨c0, hfl⟩
    · rw [hfl]
      refine ⟨⟨libName k, syncChildren [] (d.coll k), none⟩, ?_, rfl, ?_⟩
      · dsimp only [syncFilterProj]
        rw [if_neg harr]
      · intro o ho
        exact syncChildren_mem [] (d.coll k) List.nodup_nil o ho
    · have hmemf : c0 ∈ filterTag d.root (libName k) := by
        rw [hfl]
        simp
      have hc0root : c0 ∈ d.root := List.mem_of_mem_filter hmemf
      have htag : c0.tag = libName k := by
        have h2 := (List.mem_filter.mp hmemf).2
        simpa using h2
      rw [hfl]
      refine ⟨{ c0 with children := syncChildren c0.children (d.coll k) },
        ?_, htag, ?_⟩
      · dsimp only [syncFilterProj]
        rw [if_neg harr]
      · intro o ho
        exact syncChildren_mem c0.children (d.coll k) (hnd c0 hc0root) o ho

/-- Round trip: saving a freshly parsed document (with a unique scene
element) raises nothing and re-parsing the produced tree restores every
collection exactly. -/
theorem saveRoundtrip (T : List XElem) (d : DocState)
    (hpd : parseDoc T = some d)
    (hndT : ∀ e ∈ T, e.children.Nodup)
    (huniqT : ∀ k, (filterTag T (libName k)).length ≤ 1)
    (hsc : (filterTag T "scene").length = 1) :
    (save d).2 = none ∧
    ∃ d2, parseDoc (save d).1.root = some d2 ∧
      ∀ k, d2.coll k = d.coll k := by
  obtain ⟨hr, hcolls, hnone, hsome⟩ := parseDoc_spec T d hpd
  have hnd : ∀ e ∈ d.root, e.children.Nodup := by
    rw [hr]
    exact hndT
  have huniq : ∀ k, (filterTag d.root (libName k)).length ≤ 1 := by
    rw [hr]
    exact huniqT
  have hcolls2 : ∀ k, d.coll k = parseKind k d.root := by
    rw [hr]
    exact hcolls
  obtain ⟨s0, hfs0⟩ := List.length_eq_one.mp hsc
  have hfneq : filterTag (saveRoot2 d) "scene" ≠ [] := by
    rw [saveRoot2_filter_scene, hr, hfs0]
    simp
  have hfind : ((saveRoot2 d).find? (fun e => e.tag = "scene")).isSome
      = true := isSome_find_scene _ hfneq
  have hps := parseKind_save_all d hnd hcolls2 huniq
  cases hhead : (T.filterMap
      (fun e => if e.tag = "scene" then e.ref else none)).head? with
  | none =>
    have hds : d.scene = none := hnone hhead
    have hstep := sceneStep_none d (saveRoot2 d) hfind hds
    have hroot : (save d).1.root
        = setFirstScene (saveRoot2 d) ⟨"scene", [], none⟩ := by
      show (sceneStep d (saveRoot2 d)).1 = _
      rw [hstep]
    have herr : (save d).2 = none := by
      show (sceneStep d (saveRoot2 d)).2 = _
      rw [hstep]
    have hft3 : filterTag (setFirstScene (saveRoot2 d)
        ⟨"scene", [], none⟩) "scene" = [⟨"scene", [], none⟩] := by
      rw [setFirstScene_filter_self _ _ rfl, saveRoot2_filter_scene, hr,
        hfs0]
    have hrefs : ((setFirstScene (saveRoot2 d)
        ⟨"scene", [], none⟩).filterMap
          (fun e => if e.tag = "scene" then e.ref else none)).head?
        = none := by
      rw [refsHead_of_single _ _ hft3]
    refine ⟨herr, parsedState (setFirstScene (saveRoot2 d)
      ⟨"scene", [], none⟩) none, ?_, ?_⟩
    · rw [hroot]
      exact parseDoc_refs_none _ hrefs
    · intro k
      rw [parsedState_coll, hcolls k]
      have h2 := hps k
      rw [hroot] at h2
      rw [h2, hr]
  | some url =>
    obtain ⟨hhash, hds, hmem⟩ := hsome url hhead
    have hmem2 : pyTail url ∈ d.scenes.filterMap XNode.idAttr := by
      rw [show d.scenes = parseKind .scene T from hcolls Kind.scene]
      exact hmem
    have hstep := sceneStep_found d (saveRoot2 d) (pyTail url) hfind hds
      hmem2
    have hroot : (save d).1.root = setFirstScene (saveRoot2 d)
        ⟨"scene", [], some ("#" ++ pyTail url)⟩ := by
      show (sceneStep d (saveRoot2 d)).1 = _
      rw [hstep]
    have herr : (save d).2 = none := by
      show (sceneStep d (saveRoot2 d)).2 = _
      rw [hstep]
    have hft3 : filterTag (setFirstScene (saveRoot2 d)
          ⟨"scene", [], some ("#" ++ pyTail url)⟩) "scene"
        = [⟨"scene", [], some ("#" ++ pyTail url)⟩] := by
      rw [setFirstScene_filter_self _ _ rfl, saveRoot2_filter_scene, hr,
        hfs0]
    have hrefs : ((setFirstScene (saveRoot2 d)
        ⟨"scene", [], some ("#" ++ pyTail url)⟩).filterMap
          (fun e => if e.tag = "scene" then e.ref else none)).head?
        = some ("#" ++ pyTail url) := by
      rw [refsHead_of_single _ _ hft3]
    have hmem3 : pyTail url ∈ (parseKind .scene (setFirstScene
        (saveRoot2 d) ⟨"scene", [], some ("#" ++ pyTail url)⟩)).filterMap
          XNode.idAttr := by
      have h2 := hps Kind.scene
      rw [hroot] at h2
      rw [h2, hr]
      exact hmem
    refine ⟨herr, parsedState (setFirstScene (saveRoot2 d)
      ⟨"scene", [], some ("#" ++ pyTail url)⟩) (some (pyTail url)),
      ?_, ?_⟩
    · rw [hroot]
      exact parseDoc_refs_hash _ (pyTail url) hrefs hmem3
    · intro k
      rw [parsedState_coll, hcolls k]
      have h2 := hps k
      rw [hroot] at h2
      rw [h2, hr]


/-- Witness data: a parsed-shape document with one geometry, one visual
scene and a default-scene reference. -/
def rtRoot : List XElem :=
  [⟨"asset", [], none⟩,
   ⟨"library_geometries", [⟨1, "geometry", some "g0", true⟩], none⟩,
   ⟨"library_visual_scenes", [⟨2, "visual_scene", some "s0", true⟩], none⟩,
   ⟨"scene", [], some "#s0"⟩]

/-- The document state `parseDoc` yields on `rtRoot`. -/
def rtDoc : DocState :=
  ⟨rtRoot, [⟨1, "geometry", some "g0", true⟩], [], [], [], [], [], [],
   [], [], [⟨2, "visual_scene", some "s0", true⟩], some "s0"⟩

/-- Counterexample data: a document with a non-empty animations
collection and no `library_animations` container. -/
def cxAnim : DocState :=
  ⟨[⟨"asset", [], none⟩, ⟨"scene", [], none⟩],
   [], [], [⟨7, "animation", some "a0", true⟩],
   [], [], [], [], [], [], [], none⟩

/-- Counterexample data: a geometry container holding three children of
which only the third is still a collection member. -/
def cxGeo : DocState :=
  ⟨[⟨"asset", [], none⟩,
    ⟨"library_geometries",
      [⟨1, "geometry", some "g1", true⟩,
       ⟨2, "geometry", some "g2", true⟩,
       ⟨3, "geometry", some "g3", true⟩], none⟩,
    ⟨"scene", [], none⟩],
   [⟨3, "geometry", some "g3", true⟩],
   [], [], [], [], [], [], [], [], [], none⟩

/-- C1: on a document whose root elements have duplicate-free children
and at most one container per library tag, `save` manages the containers
of the *nine* kinds on its `libraries` list — the container is gone
exactly when the collection is empty and otherwise is the single
container of its tag and holds every collection member among its
children — and the asset element ends up at position 0; and a
save-then-reparse round trip on a freshly parsed document (with a unique
scene element) raises nothing and restores all ten collections with the
same identities, order and count.  The animations collection is missing
from `save`'s `libraries` list, and surviving stale children can exceed
the members (see
`c1_animations_and_stale_children_counterexample`). -/
theorem c1_library_container_sync_roundtrip (d : DocState)
    (T : List XElem)
    (hnd : ∀ e ∈ d.root, e.children.Nodup)
    (huniq : ∀ k, (filterTag d.root (libName k)).length ≤ 1) :
    (∀ k ∈ saveLibraries,
      (d.coll k = [] → filterTag (save d).1.root (libName k) = []) ∧
      (d.coll k ≠ [] →
        ∃ c, filterTag (save d).1.root (libName k) = [c] ∧
          c.tag = libName k ∧ ∀ o ∈ d.coll k, o ∈ c.children)) ∧
    ((save d).1.root.head?.map XElem.tag = some "asset") ∧
    (parseDoc T = some d → (filterTag T "scene").length = 1 →
      (save d).2 = none ∧
      ∃ d2, parseDoc (save d).1.root = some d2 ∧
        ∀ k, d2.coll k = d.coll k) := by
  refine ⟨saveContainers d hnd huniq, save_head_asset d, ?_⟩
  intro hpd hsc
  have hr : d.root = T := (parseDoc_spec T d hpd).1
  refine saveRoundtrip T d hpd ?_ ?_ hsc
  · rw [← hr]
    exact hnd
  · rw [← hr]
    exact huniq

/-- Witness for C1 at the concrete parsed document `rtDoc`. -/
theorem c1_library_container_sync_roundtrip_witness :
    ((∀ e ∈ rtDoc.root, e.children.Nodup) ∧
      (∀ k, (filterTag rtDoc.root (libName k)).length ≤ 1) ∧
      parseDoc rtRoot = some rtDoc ∧
      (filterTag rtRoot "scene").length = 1) ∧
    ((∀ k ∈ saveLibraries,
      (rtDoc.coll k = [] →
        filterTag (save rtDoc).1.root (libName k) = []) ∧
      (rtDoc.coll k ≠ [] →
        ∃ c, filterTag (save rtDoc).1.root (libName k) = [c] ∧
          c.tag = libName k ∧ ∀ o ∈ rtDoc.coll k, o ∈ c.children)) ∧
    ((save rtDoc).1.root.head?.map XElem.tag = some "asset") ∧
    (parseDoc rtRoot = some rtDoc →
      (filterTag rtRoot "scene").length = 1 →
      (save rtDoc).2 = none ∧
      ∃ d2, parseDoc (save rtDoc).1.root = some d2 ∧
        ∀ k, d2.coll k = rtDoc.coll k)) :=
  ⟨⟨by decide, by intro k; cases k <;> decide, by decide, by decide⟩,
   c1_library_container_sync_roundtrip rtDoc rtRoot (by decide)
     (by intro k; cases k <;> decide)⟩

/-- Counterexample to C1 as stated: a non-empty animations collection
gets no container from `save` (its kind is missing from the `libraries`
list), and a synced container's children need not match the collection
exactly — pruning children `[g1, g2, g3]` against the single member
`[g3]` removes `g1` but skips `g2`, leaving `[g2, g3]`. -/
theorem c1_animations_and_stale_children_counterexample :
    (cxAnim.animations ≠ [] ∧
      filterTag (save cxAnim).1.root "library_animations" = []) ∧
    (cxGeo.coll Kind.geometry = [⟨3, "geometry", some "g3", true⟩] ∧
      filterTag (save cxGeo).1.root "library_geometries"
        = [⟨"library_geometries",
            [⟨2, "geometry", some "g2", true⟩,
             ⟨3, "geometry", some "g3", true⟩], none⟩] ∧
      ([⟨2, "geometry", some "g2", true⟩,
        ⟨3, "geometry", some "g3", true⟩] : List XNode)
        ≠ [⟨3, "geometry", some "g3", true⟩]) := by
  refine ⟨⟨by decide, ?_⟩, by decide, ?_, by decide⟩
  · rw [save_filter_animations]
    decide
  · have hsync : syncChildren
        [⟨1, "geometry", some "g1", true⟩,
         ⟨2, "geometry", some "g2", true⟩,
         ⟨3, "geometry", some "g3", true⟩]
        [⟨3, "geometry", some "g3", true⟩]
        = [⟨2, "geometry", some "g2", true⟩,
           ⟨3, "geometry", some "g3", true⟩] := by
      rw [syncChildren_eq_pruneSpec _ _ (by decide) (by decide)]
      decide
    show filterTag (save cxGeo).1.root (libName Kind.geometry) = _
    rw [save_filter_synced cxGeo Kind.geometry (by decide)]
    rw [show filterTag cxGeo.root (libName Kind.geometry)
        = [⟨"library_geometries",
            [⟨1, "geometry", some "g1", true⟩,
             ⟨2, "geometry", some "g2", true⟩,
             ⟨3, "geometry", some "g3", true⟩], none⟩] from by decide]
    rw [show cxGeo.coll Kind.geometry
        = [⟨3, "geometry", some "g3", true⟩] from rfl]
    dsimp only [syncFilterProj]
    rw [if_neg (by decide : ¬ ((([⟨3, "geometry", some "g3", true⟩]
        : List XNode)).isEmpty = true))]
    rw [hsync]


/-- Witness data: a document whose default scene id is absent from the
scenes collection. -/
def brokenDoc : DocState :=
  ⟨[⟨"asset", [], none⟩, ⟨"scene", [], some "#x"⟩],
   [], [], [], [], [], [], [], [], [], [], some "missing"⟩

/-- C2: with a default scene set to an id absent from the scenes
collection (and a scene element present), `save` raises
`DaeBrokenRefError` — but only *after* the asset block, the nine library
syncs and the `scenenode.clear()` have run: the tree returned at the
raise is the fully synced tree with its scene element cleared, not the
pre-save tree (see `c2_tree_mutated_counterexample`). -/
theorem c2_broken_scene_raise_after_mutation (d : DocState) (sid : String)
    (hfs : filterTag d.root "scene" ≠ [])
    (hs : d.scene = some sid)
    (hmem : sid ∉ d.scenes.filterMap XNode.idAttr) :
    (save d).2 = some (.dae ⟨.brokenRef,
        "Default scene " ++ sid ++ " not found"⟩) ∧
    (save d).1.root
      = setFirstScene (saveRoot2 d) ⟨"scene", [], none⟩ := by
  have hfind : ((saveRoot2 d).find?
      (fun e => e.tag = "scene")).isSome = true := by
    apply isSome_find_scene
    rw [saveRoot2_filter_scene]
    exact hfs
  have hstep := sceneStep_broken d (saveRoot2 d) sid hfind hs hmem
  constructor
  · show (sceneStep d (saveRoot2 d)).2 = _
    rw [hstep]
  · show (sceneStep d (saveRoot2 d)).1 = _
    rw [hstep]

/-- Witness for C2 at the concrete document `brokenDoc`. -/
theorem c2_broken_scene_raise_after_mutation_witness :
    (filterTag brokenDoc.root "scene" ≠ [] ∧
      brokenDoc.scene = some "missing" ∧
      "missing" ∉ brokenDoc.scenes.filterMap XNode.idAttr) ∧
    ((save brokenDoc).2 = some (.dae ⟨.brokenRef,
        "Default scene " ++ "missing" ++ " not found"⟩) ∧
      (save brokenDoc).1.root
        = setFirstScene (saveRoot2 brokenDoc) ⟨"scene", [], none⟩) :=
  ⟨⟨by decide, rfl, by decide⟩,
   c2_broken_scene_raise_after_mutation brokenDoc "missing"
     (by decide) rfl (by decide)⟩

/-- Counterexample to C2 as stated: on a broken default-scene reference
the error is raised, yet the returned tree differs from the pre-save
tree — the scene element's reference has been cleared — so the tree
state is *not* unchanged at the raise. -/
theorem c2_tree_mutated_counterexample :
    (save ⟨[⟨"asset", [], none⟩, ⟨"scene", [], some "#old"⟩],
       [], [], [], [], [], [], [], [], [], [], some "missing"⟩).2
      = some (.dae ⟨.brokenRef, "Default scene missing not found"⟩) ∧
    (save ⟨[⟨"asset", [], none⟩, ⟨"scene", [], some "#old"⟩],
       [], [], [], [], [], [], [], [], [], [], some "missing"⟩).1.root
      ≠ [⟨"asset", [], none⟩, ⟨"scene", [], some "#old"⟩] := by
  decide

end PyCollada
